import Mathlib

/-!
Verification of the backy2 block-level backup engine (david-caro/backy2).

The development shallowly embeds the two source files:
* `src/backy2/backy.py` — the engine (`Backy`), its SQL meta backend
  (`SQLBackend`), the file blob store (`FileBackend`) and the hint helper
  `blocks_from_hints`;
* `src/backy2/meta_backends/sql.py` — the refcounted meta backend
  (`MetaBackend`) with `ref_add`/`ref_del`, `set_block`, `rm_version`,
  `export` and `import_`.

Python byte strings become `List Nat`; the SQL tables become lists of row
structures kept in insertion (rowid) order; nullable columns become
`Option`; fallible code returns `Except Err`.  The SHA-512 hash function is
an opaque parameter `hash : Bytes → String`, since no claim depends on any
property of the digest beyond equality.  Wall-clock dates are opaque
strings.  Backend-minted uids (uuid-derived in the source) are modelled by
a counter producing fresh textual uids.
-/

namespace Backy2

/-- Byte strings (Python `bytes`) as lists of byte values. -/
abbrev Bytes := List Nat

/-- Exceptions raised by the embedded code.  `keyError`, `valueError`,
`runtimeError`, `assertionError`, `fileNotFoundError` and
`integrityError` correspond to the Python exception classes of the same
names. -/
inductive Err
  | keyError
  | valueError
  | runtimeError
  | assertionError
  | fileNotFoundError
  | integrityError
deriving Repr, DecidableEq

deriving instance DecidableEq for Except

/-- Left fold that stops at the first exception; this is how a Python
`for` loop over fallible statements behaves. -/
def foldE (f : σ → α → Except ε σ) : σ → List α → Except ε σ
  | s, [] => .ok s
  | s, x :: xs =>
    match f s x with
    | .ok s' => foldE f s' xs
    | .error e => .error e

/-- Replace the first element satisfying `p` by its image under `f`; this
models an SQLAlchemy update through the row object returned by
`query(...).first()`. -/
def updateFirst (p : α → Bool) (f : α → α) : List α → List α
  | [] => []
  | x :: xs => if p x then f x :: xs else x :: updateFirst p f xs

/-- `backy.py` `blocks_from_hints`: every hint `(offset, length, exists)`
contributes the block indices from `floor(offset / block_size)` up to
(excluding) `ceil((offset + length) / block_size)`; the results are
accumulated into a set.  The `exists` flag is ignored here — callers
filter by it first.  Python's `math.floor(a / b)` and `math.ceil(a / b)`
on non-negative integers are the exact integer quotient and the exact
ceiling quotient `(a + b - 1) / b`. -/
def blocks_from_hints (hints : List (Nat × Nat × Bool)) (block_size : Nat) : Finset Nat :=
  hints.foldl (fun blocks h =>
    let start_block := h.1 / block_size
    let end_block := (h.1 + h.2.1 + block_size - 1) / block_size
    (List.range' start_block (end_block - start_block)).foldl (fun s i => insert i s) blocks) ∅

namespace SQLBackend

/-- A row of the `blocks` table as declared in `backy.py` (`uid` and
`checksum` are nullable; `valid` is a 0/1 integer).  The wall-clock
`date` column is not modelled: nothing in `backy.py` reads it. -/
structure BlockRow where
  uid : Option String
  version_uid : String
  id : Nat
  checksum : Option String
  size : Nat
  valid : Nat
deriving Repr, DecidableEq

/-- A row of the `versions` table as declared in `backy.py`. -/
structure VersionRow where
  uid : String
  name : String
  size : Nat
  size_bytes : Nat
  valid : Nat
deriving Repr, DecidableEq

/-- The state of the `SQLBackend` database of `backy.py`: both tables in
insertion (rowid) order, plus the supply for minted version uids
(`_uid` returns a fresh uuid1 string in the source). -/
structure State where
  versions : List VersionRow
  blocks : List BlockRow
  vcounter : Nat
deriving Repr, DecidableEq

/-- `SQLBackend.set_version`: mint a fresh uid, insert the version row,
return the uid. -/
def set_version (version_name : String) (size : Nat) (size_bytes : Nat) (valid : Nat)
    (s : State) : State × String :=
  let uid := "version-" ++ toString s.vcounter
  ({ s with
      versions := s.versions ++ [⟨uid, version_name, size, size_bytes, valid⟩],
      vcounter := s.vcounter + 1 }, uid)

/-- `SQLBackend.get_version` without the `KeyError`: `query(Version).
filter_by(uid=uid).first()`. -/
def get_version (uid : String) (s : State) : Option VersionRow :=
  s.versions.find? (fun v => v.uid == uid)

/-- `SQLBackend.set_version_valid`; raises `KeyError` when the version
does not exist (via `get_version`). -/
def set_version_valid (uid : String) (s : State) : Except Err State :=
  match get_version uid s with
  | none => .error .keyError
  | some _ => .ok { s with
      versions := s.versions.map (fun v => if v.uid == uid then { v with valid := 1 } else v) }

/-- `SQLBackend.set_version_invalid`; raises `KeyError` when the version
does not exist. -/
def set_version_invalid (uid : String) (s : State) : Except Err State :=
  match get_version uid s with
  | none => .error .keyError
  | some _ => .ok { s with
      versions := s.versions.map (fun v => if v.uid == uid then { v with valid := 0 } else v) }

/-- `SQLBackend.set_block` (`backy.py`): upsert on the primary key
`(version_uid, id)`.  `valid = 1 if valid else 0` normalises Python
truthiness of the integer argument. -/
def set_block (id : Nat) (version_uid : String) (block_uid : Option String)
    (checksum : Option String) (size : Nat) (valid : Nat) (s : State) : State :=
  let v := if valid ≠ 0 then 1 else 0
  let p : BlockRow → Bool := fun b => b.id == id && b.version_uid == version_uid
  let upd : BlockRow → BlockRow :=
    fun b => { b with uid := block_uid, checksum := checksum, size := size, valid := v }
  match s.blocks.find? p with
  | some _ => { s with blocks := updateFirst p upd s.blocks }
  | none => { s with blocks := s.blocks ++ [⟨block_uid, version_uid, id, checksum, size, v⟩] }

/-- `SQLBackend.set_blocks_invalid`: mark every block row carrying the
given `(uid, checksum)` pair invalid, then mark every version owning such
a row invalid.  (The versions necessarily exist — `version_uid` is a
foreign key into `versions` — so the `KeyError` of `set_version_invalid`
cannot fire and the update is modelled directly.) -/
def set_blocks_invalid (uid : String) (checksum : Option String) (s : State) : State :=
  let hit : BlockRow → Bool := fun b => b.uid == some uid && b.checksum == checksum
  let affected_version_uids := ((s.blocks.filter hit).map (fun b => b.version_uid)).dedup
  { s with
      blocks := s.blocks.map (fun b => if hit b then { b with valid := 0 } else b),
      versions := s.versions.map
        (fun v => if affected_version_uids.contains v.uid then { v with valid := 0 } else v) }

/-- `SQLBackend.get_block_by_checksum` (`backy.py`): the first block row
whose checksum matches — note there is *no* filter on `valid` in this
implementation. -/
def get_block_by_checksum (checksum : String) (s : State) : Option BlockRow :=
  s.blocks.find? (fun b => b.checksum == some checksum)

/-- `SQLBackend.get_blocks_by_version` (`backy.py`): `filter_by(
version_uid=version_uid).all()` with no `order_by`; rows come back in
insertion (rowid) order. -/
def get_blocks_by_version (version_uid : String) (s : State) : List BlockRow :=
  s.blocks.filter (fun b => b.version_uid == version_uid)

/-- `SQLBackend.get_all_block_uids`: `distinct(Block.uid)` — the distinct
`uid` values of the blocks table, the SQL NULL (`none`) included when
sparse blocks exist. -/
def get_all_block_uids (s : State) : List (Option String) :=
  (s.blocks.map (fun b => b.uid)).dedup

end SQLBackend

/-- The state of the `FileBackend` blob store of `backy.py`: the blob
files on disk (uid, contents), plus the supply for minted blob uids
(`_uid` returns a fresh md5-of-uuid1 hex string in the source, so a
freshly minted uid never collides with an existing file). -/
structure DataState where
  counter : Nat
  store : List (String × Bytes)
deriving Repr, DecidableEq

namespace FileBackend

/-- `FileBackend.save`: mint a fresh uid, write the blob, return the uid.
The `os.path.exists` collision check cannot fire for a fresh uid. -/
def save (d : DataState) (data : Bytes) : DataState × String :=
  let uid := "blob-" ++ toString d.counter
  ({ counter := d.counter + 1, store := d.store ++ [(uid, data)] }, uid)

/-- `FileBackend.read`: return the blob's bytes, or raise
`FileNotFoundError` when no file for this uid exists. -/
def read (d : DataState) (uid : String) : Except Err Bytes :=
  match d.store.find? (fun p => p.1 == uid) with
  | some p => .ok p.2
  | none => .error .fileNotFoundError

/-- `FileBackend.rm`: unlink the blob's file, or raise
`FileNotFoundError` when it does not exist. -/
def rm (d : DataState) (uid : String) : Except Err DataState :=
  if d.store.any (fun p => p.1 == uid) then
    .ok { d with store := d.store.filter (fun p => p.1 != uid) }
  else .error .fileNotFoundError

/-- `FileBackend.get_all_blob_uids`: walk the store directory and collect
the uid of every `*.blob` file. -/
def get_all_blob_uids (d : DataState) : List String :=
  d.store.map (fun p => p.1)

end FileBackend

namespace Backy

open SQLBackend

/-- The per-id body of the `for id in range(size)` loop of
`Backy._prepare_version`: pick the inherited `(uid, checksum, size,
valid)` — from the base version's block list when one is given and
non-empty (`if old_blocks:` is Python truthiness, so an *empty* base
block list behaves like no base), falling back to sparse-valid defaults
on `IndexError` — clamp the block size by the remaining logical length,
reset the block to sparse-valid whenever clamping changed the size, and
insert the row.  `assert old_block.id == id` is the source's assertion.
Within the loop `id * block_size < size_bytes`, so the Python difference
`size_bytes - _offset` is positive and natural subtraction is exact. -/
def prepare_one (block_size : Nat) (size_bytes : Nat) (old_blocks : Option (List BlockRow))
    (version_uid : String) (st : State) (id : Nat) : Except Err State :=
  let inherited : Except Err (Option String × Option String × Nat × Nat) :=
    match old_blocks with
    | some (ob0 :: obs) =>
      match (ob0 :: obs).get? id with
      | none => .ok (none, none, block_size, 1)
      | some old_block =>
        if old_block.id ≠ id then .error .assertionError
        else .ok (old_block.uid, old_block.checksum, old_block.size, old_block.valid)
    | _ => .ok (none, none, block_size, 1)
  match inherited with
  | .error e => .error e
  | .ok (uid, checksum, bsize, valid) =>
    let _offset := id * block_size
    let new_block_size := min bsize (size_bytes - _offset)
    if new_block_size ≠ bsize then
      .ok (set_block id version_uid none none new_block_size 1 st)
    else
      .ok (set_block id version_uid uid checksum bsize valid st)

/-- The block row that one `_prepare_version` loop iteration inserts
for index `id` (the composition of the loop body's inheritance, clamp
and reset logic with `set_block`'s insert and validity normalisation),
written out as a single record for reasoning about the loop. -/
def prepared_row (block_size : Nat) (size_bytes : Nat) (old_blocks : Option (List BlockRow))
    (version_uid : String) (id : Nat) : BlockRow :=
  let inherited : Option String × Option String × Nat × Nat :=
    match old_blocks with
    | some (ob0 :: obs) =>
      match (ob0 :: obs).get? id with
      | none => (none, none, block_size, 1)
      | some old_block => (old_block.uid, old_block.checksum, old_block.size, old_block.valid)
    | _ => (none, none, block_size, 1)
  let new_block_size := min inherited.2.2.1 (size_bytes - id * block_size)
  if new_block_size ≠ inherited.2.2.1 then
    ⟨none, version_uid, id, none, new_block_size, if (1 : Nat) ≠ 0 then 1 else 0⟩
  else
    ⟨inherited.1, version_uid, id, inherited.2.1, inherited.2.2.1,
      if inherited.2.2.2 ≠ 0 then 1 else 0⟩

/-- `Backy._prepare_version`: create a new, invalid version of
`ceil(size_bytes / block_size)` blocks, each initialised from the base
version's corresponding block when a valid base is given (RuntimeError
when the base is invalid, KeyError when it does not exist), sparse-valid
otherwise. -/
def prepare_version (block_size : Nat) (name : String) (size_bytes : Nat)
    (from_version_uid : Option String) (s : State) : Except Err (State × String) :=
  let old_blocksE : Except Err (Option (List BlockRow)) :=
    match from_version_uid with
    | some fv =>
      match get_version fv s with
      | none => .error .keyError
      | some old_version =>
        if old_version.valid = 0 then .error .runtimeError
        else .ok (some (get_blocks_by_version fv s))
    | none => .ok none
  match old_blocksE with
  | .error e => .error e
  | .ok old_blocks =>
    let size := (size_bytes + block_size - 1) / block_size
    let (s, version_uid) := set_version name size size_bytes 0 s
    match foldE (prepare_one block_size size_bytes old_blocks version_uid) s (List.range size) with
    | .error e => .error e
    | .ok s => .ok (s, version_uid)

/-- The read-and-store path of the backup main loop: read the block's
bytes from the source (RuntimeError on EOF), hash them, look the digest
up in the dedup index (`SQLBackend.get_block_by_checksum`), reuse the
found block's uid when its size matches, otherwise persist the bytes via
`FileBackend.save`; either way upsert the block row valid. -/
def backupReadBlock (hash : Bytes → String) (block_size : Nat) (source : Bytes)
    (version_uid : String) (acc : State × DataState) (block : BlockRow) :
    Except Err (State × DataState) :=
  let (meta, db) := acc
  let data := (source.drop (block.id * block_size)).take block_size
  if data.isEmpty then .error .runtimeError
  else
    let data_checksum := hash data
    match get_block_by_checksum data_checksum meta with
    | some existing_block =>
      if existing_block.size = data.length then
        .ok (set_block block.id version_uid existing_block.uid (some data_checksum)
              data.length 1 meta, db)
      else
        let (db', block_uid) := FileBackend.save db data
        .ok (set_block block.id version_uid (some block_uid) (some data_checksum)
              data.length 1 meta, db')
    | none =>
      let (db', block_uid) := FileBackend.save db data
      .ok (set_block block.id version_uid (some block_uid) (some data_checksum)
            data.length 1 meta, db')

/-- The body of `for block in blocks` in `Backy.backup`: read the block
when its id is hinted for reading *or* the block is invalid; otherwise,
when its id is hinted sparse, reset the row to sparse-valid; otherwise
leave everything unchanged. -/
def backupStep (hash : Bytes → String) (block_size : Nat) (source : Bytes)
    (read_blocks sparse_blocks : Finset Nat) (version_uid : String)
    (acc : State × DataState) (block : BlockRow) : Except Err (State × DataState) :=
  if block.id ∈ read_blocks ∨ block.valid = 0 then
    backupReadBlock hash block_size source version_uid acc block
  else if block.id ∈ sparse_blocks then
    .ok (set_block block.id version_uid none none block.size 1 acc.1, acc.2)
  else .ok acc

/-- `Backy.backup`: compute the hinted block sets (`if hints:` is Python
truthiness, so `none` *and* the empty hint list both fall back to
reading every block), validate hint offsets against the source size,
prepare the new version, run the main loop over its blocks, and mark the
version valid. -/
def backup (hash : Bytes → String) (block_size : Nat) (name : String) (source : Bytes)
    (hints : Option (List (Nat × Nat × Bool))) (from_version : Option String)
    (s : State) (db : DataState) : Except Err (State × DataState × String) :=
  let source_size := source.length
  let size := (source_size + block_size - 1) / block_size
  let hs := hints.getD []
  let hintsTruthy : Bool := !hs.isEmpty
  if hintsTruthy && hs.any (fun h => source_size < h.1 + h.2.1) then .error .valueError
  else
    let sparse_blocks : Finset Nat :=
      if hintsTruthy then blocks_from_hints (hs.filter (fun h => !h.2.2)) block_size else ∅
    let read_blocks : Finset Nat :=
      if hintsTruthy then blocks_from_hints (hs.filter (fun h => h.2.2)) block_size
      else Finset.range size
    match prepare_version block_size name source_size from_version s with
    | .error e => .error e
    | .ok (s, version_uid) =>
      let blocks := get_blocks_by_version version_uid s
      match foldE (backupStep hash block_size source read_blocks sparse_blocks version_uid)
          (s, db) blocks with
      | .error e => .error e
      | .ok (s, db) =>
        match set_version_valid version_uid s with
        | .error e => .error e
        | .ok s => .ok (s, db, version_uid)

/-- The restore target file: the current file position (`f.tell()`) and
the log of completed writes `(offset, bytes)`. -/
structure FileState where
  pos : Nat
  writes : List (Nat × Bytes)
deriving Repr, DecidableEq

/-- The body of `for block in blocks` in `Backy.restore`: seek to the
block's offset; for a non-sparse block read the blob (an uncaught
`FileNotFoundError` aborts the restore), `assert len(data) ==
block.size` *before* writing, write the bytes, and on a checksum
mismatch mark the `(uid, checksum)` pair invalid and continue; for a
sparse block write explicit zeros unless `sparse` restore was requested.
A raised exception carries the file and meta state at the moment of the
raise, which is what the aborted process leaves behind. -/
def restoreStep (hash : Bytes → String) (block_size : Nat) (db : DataState) (sparse : Bool)
    (acc : FileState × State) (block : BlockRow) :
    Except (Err × FileState × State) (FileState × State) :=
  let (f, meta) := acc
  let f := { f with pos := block.id * block_size }
  match block.uid with
  | some u =>
    match FileBackend.read db u with
    | .error e => .error (e, f, meta)
    | .ok data =>
      if data.length ≠ block.size then .error (.assertionError, f, meta)
      else
        let data_checksum := hash data
        let f := { pos := f.pos + data.length, writes := f.writes ++ [(block.id * block_size, data)] }
        if block.checksum ≠ some data_checksum then
          .ok (f, set_blocks_invalid u block.checksum meta)
        else .ok (f, meta)
  | none =>
    if !sparse then
      .ok ({ pos := f.pos + block.size,
             writes := f.writes ++ [(block.id * block_size, List.replicate block.size 0)] }, meta)
    else .ok (f, meta)

/-- `Backy.restore`: fetch the version and its blocks, run the per-block
loop, and finally — when the file position is short of `size_bytes`,
which happens when the last block was skipped in sparse mode — write one
`\0` byte at the last block's final offset (`blocks[-1]` raises
`IndexError` on an empty block list). -/
def restore (hash : Bytes → String) (block_size : Nat) (version_uid : String) (sparse : Bool)
    (s : State) (db : DataState) : Except (Err × FileState × State) (FileState × State) :=
  match get_version version_uid s with
  | none => .error (.keyError, ⟨0, []⟩, s)
  | some version =>
    let blocks := get_blocks_by_version version_uid s
    match foldE (restoreStep hash block_size db sparse) (⟨0, []⟩, s) blocks with
    | .error e => .error e
    | .ok (f, meta) =>
      if f.pos ≠ version.size_bytes then
        match blocks.getLast? with
        | none => .error (.keyError, f, meta)
        | some last_block =>
          .ok ({ pos := last_block.id * block_size + last_block.size - 1 + 1,
                 writes := f.writes ++
                   [(last_block.id * block_size + last_block.size - 1, [0])] }, meta)
      else .ok (f, meta)

/-- The body of `for block in blocks` in `Backy.scrub`: sparse blocks
are skipped; a block can be skipped by the percentile sampler only when
`percentile < 100` (`skip` stands for the draw `random.randint(1, 100) >
percentile`); otherwise the blob is read (an uncaught
`FileNotFoundError` aborts the scrub), its length checked by an
assertion, and its hash compared to the recorded checksum — on mismatch
the `(uid, checksum)` pair is marked invalid and the state flips to
`False`; when the checksum matches and a source is given, the source's
bytes at the block's offset are compared to the blob and a difference
flips the state to `False` *without* touching the meta backend. -/
def scrubStep (hash : Bytes → String) (block_size : Nat) (percentile : Nat)
    (skip : Nat → Bool) (db : DataState) (source : Option Bytes)
    (acc : Bool × State) (block : BlockRow) : Except Err (Bool × State) :=
  let (state, meta) := acc
  match block.uid with
  | none => .ok (state, meta)
  | some u =>
    if percentile < 100 && skip block.id then .ok (state, meta)
    else
      match FileBackend.read db u with
      | .error e => .error e
      | .ok data =>
        if data.length ≠ block.size then .error .assertionError
        else
          let data_checksum := hash data
          if block.checksum ≠ some data_checksum then
            .ok (false, set_blocks_invalid u block.checksum meta)
          else
            match source with
            | some src =>
              let source_data := (src.drop (block.id * block_size)).take block.size
              if source_data ≠ data then .ok (false, meta) else .ok (state, meta)
            | none => .ok (state, meta)

/-- `Backy.scrub`: fetch the version (KeyError when absent) and its
blocks and run the per-block check loop starting from `state = True`;
the returned boolean is `True` only when no check failed. -/
def scrub (hash : Bytes → String) (block_size : Nat) (version_uid : String)
    (source : Option Bytes) (percentile : Nat) (skip : Nat → Bool)
    (s : State) (db : DataState) : Except Err (Bool × State) :=
  match get_version version_uid s with
  | none => .error .keyError
  | some _ =>
    let blocks := get_blocks_by_version version_uid s
    foldE (scrubStep hash block_size percentile skip db source) (true, s) blocks

/-- `Backy.cleanup`, the removal loop: `for remove_candidate in
remove_candidates: data_backend.rm(remove_candidate)` — nothing catches
the `FileNotFoundError` that `FileBackend.rm` raises for a missing
blob. -/
def cleanup_rm_candidates (remove_candidates : List String) (db : DataState) :
    Except Err DataState :=
  foldE (fun d u => FileBackend.rm d u) db remove_candidates

/-- `Backy.cleanup`: remove every blob uid present in the data backend
but not referenced by any block row of the meta backend. -/
def cleanup (s : State) (db : DataState) : Except Err DataState :=
  let active_block_uids := get_all_block_uids s
  let active_blob_uids := FileBackend.get_all_blob_uids db
  let remove_candidates :=
    (active_blob_uids.filter (fun u => !active_block_uids.contains (some u))).dedup
  cleanup_rm_candidates remove_candidates db

end Backy

namespace MetaBackend

/-- `meta_backends/sql.py` `METADATA_VERSION`. -/
def METADATA_VERSION : String := "2.1"

/-- A row of the `blocks` table as declared in `meta_backends/sql.py`.
The wall-clock `date` column is an opaque string here (its only uses are
`strftime`/`strptime` round trips through the metadata dump). -/
structure BlockRow where
  uid : Option String
  version_uid : String
  id : Nat
  date : String
  checksum : Option String
  size : Nat
  valid : Nat
deriving Repr, DecidableEq

/-- A row of the `versions` table as declared in `meta_backends/sql.py`. -/
structure VersionRow where
  uid : String
  date : String
  name : String
  size : Nat
  size_bytes : Nat
  valid : Nat
deriving Repr, DecidableEq

/-- A row of the `block_refcounter` table: `uid` is the primary key;
`refs` is a (signed) big integer.  The `modified` timestamp column is
not modelled — no claim under verification reads it. -/
structure RefRow where
  uid : String
  refs : Int
deriving Repr, DecidableEq

/-- The state of the `MetaBackend` database of `meta_backends/sql.py`:
the three tables, each in insertion (rowid) order. -/
structure State where
  versions : List VersionRow
  blocks : List BlockRow
  refs : List RefRow
deriving Repr, DecidableEq

/-- `MetaBackend.ref_del`: sparse uids (`None`) are not tracked;
otherwise `UPDATE ... SET refs = refs - 1` on the uid's row, raising
`KeyError` when no row was updated. -/
def ref_del (uid : Option String) (s : State) : Except Err State :=
  match uid with
  | none => .ok s
  | some u =>
    let dec : RefRow → RefRow := fun r => { r with refs := r.refs - 1 }
    if s.refs.any (fun r => r.uid == u) then
      .ok { s with refs := updateFirst (fun r => r.uid == u) dec s.refs }
    else .error .keyError

/-- `MetaBackend.ref_add`: sparse uids (`None`) are not tracked;
otherwise update `refs = refs + 1` when the uid's row exists, and insert
a fresh row with `refs = 1` when it does not.  (The `IntegrityError`
retry guards a concurrent insert, which cannot occur on the single
engine session; the net effect is always an increment-or-insert.) -/
def ref_add (uid : Option String) (s : State) : State :=
  match uid with
  | none => s
  | some u =>
    let inc : RefRow → RefRow := fun r => { r with refs := r.refs + 1 }
    if s.refs.any (fun r => r.uid == u) then
      { s with refs := updateFirst (fun r => r.uid == u) inc s.refs }
    else { s with refs := s.refs ++ [⟨u, 1⟩] }

/-- `MetaBackend.get_version` without the `KeyError`:
`query(Version).filter_by(uid=uid).first()`. -/
def get_version (uid : String) (s : State) : Option VersionRow :=
  s.versions.find? (fun v => v.uid == uid)

/-- `MetaBackend.set_block` (`meta_backends/sql.py`): upsert on the
primary key `(version_uid, id)` (insert-only when `_upsert` is false —
an insert colliding with an existing row then raises `IntegrityError`
at commit).  On an update that changes the stored uid, the new uid's
refcount is incremented and the old uid's decremented; on an insert the
new uid's refcount is incremented; `now` is the wall-clock value
`datetime.datetime.now()` stamped into `date`. -/
def set_block (now : String) (id : Nat) (version_uid : String) (block_uid : Option String)
    (checksum : Option String) (size : Nat) (valid : Nat) (upsert : Bool)
    (s : State) : Except Err State :=
  let v := if valid ≠ 0 then 1 else 0
  let p : BlockRow → Bool := fun b => b.id == id && b.version_uid == version_uid
  let existing := if upsert then s.blocks.find? p else none
  match existing with
  | some block =>
    let upd : BlockRow → BlockRow :=
      fun b => { b with checksum := checksum, size := size, valid := v, date := now }
    if block.uid ≠ block_uid then
      let s1 := ref_add block_uid s
      match ref_del block.uid s1 with
      | .error e => .error e
      | .ok s2 =>
        .ok { s2 with blocks := updateFirst p (fun b => { upd b with uid := block_uid }) s2.blocks }
    else
      .ok { s with blocks := updateFirst p upd s.blocks }
  | none =>
    if !upsert && s.blocks.any p then .error .integrityError
    else
      .ok (ref_add block_uid
        { s with blocks := s.blocks ++ [⟨block_uid, version_uid, id, now, checksum, size, v⟩] })

/-- `MetaBackend.get_block_by_checksum` (`meta_backends/sql.py`): the
first block row whose checksum matches *and* whose `valid` flag is 1 —
`filter_by(checksum=checksum, valid=1).first()`. -/
def get_block_by_checksum (checksum : String) (s : State) : Option BlockRow :=
  s.blocks.find? (fun b => b.checksum == some checksum && b.valid == 1)

/-- Insert a block row into a list that is sorted by ascending id. -/
def insertByID (b : BlockRow) : List BlockRow → List BlockRow
  | [] => [b]
  | x :: xs => if b.id ≤ x.id then b :: x :: xs else x :: insertByID b xs

/-- Sort block rows by ascending id (models SQL `ORDER BY blocks.id`). -/
def sortByID (l : List BlockRow) : List BlockRow :=
  l.foldr insertByID []

/-- `MetaBackend.get_blocks_by_version` (`meta_backends/sql.py`):
`filter_by(version_uid=version_uid).order_by(Block.id).all()`. -/
def get_blocks_by_version (version_uid : String) (s : State) : List BlockRow :=
  sortByID (s.blocks.filter (fun b => b.version_uid == version_uid))

/-- `MetaBackend.rm_version`: decrement the refcount of every block row
of the version, delete those block rows, delete the version row, return
the number of deleted block rows. -/
def rm_version (version_uid : String) (s : State) : Except Err (State × Nat) :=
  let affected_blocks := s.blocks.filter (fun b => b.version_uid == version_uid)
  let num_blocks := affected_blocks.length
  match foldE (fun st b => ref_del b.uid st) s affected_blocks with
  | .error e => .error e
  | .ok s =>
    .ok ({ s with
            blocks := s.blocks.filter (fun b => b.version_uid != version_uid),
            versions := s.versions.filter (fun v => v.uid != version_uid) }, num_blocks)

/-- One CSV cell of the metadata dump.  The dump is a text file: `None`
is written as the empty field, strings are written verbatim, and
integers are written in decimal.  Decimal formatting of a non-negative
integer is injective and is inverted exactly by the INTEGER column
affinity applied on import, so it is modelled by the `num` embedding;
the lossy collapse `None ↦ ""` on nullable string columns is modelled
exactly. -/
inductive Cell
  | str (s : String)
  | num (n : Nat)
deriving Repr, DecidableEq

/-- Reading a CSV cell into a TEXT-affinity column: the field's text. -/
def Cell.toColumnStr : Cell → String
  | .str s => s
  | .num n => toString n

/-- Reading a CSV cell into an INTEGER-affinity column: a decimal field
becomes the integer it denotes (non-numeric text would be kept as text
by SQLite; that cannot arise from a dump this code wrote, and is mapped
to 0 here). -/
def Cell.toColumnNat : Cell → Nat
  | .str _ => 0
  | .num n => n

/-- A parsed metadata dump: the signature line, the version line and one
line per block, in the order `export` writes them. -/
structure Dump where
  signature : String
  version_row : List Cell
  block_rows : List (List Cell)
deriving Repr, DecidableEq

/-- `MetaBackend.export`: write the signature line, the version's row
`(uid, date, name, size, size_bytes, valid)` and, for each block of the
version in id order, the row `(uid, version_uid, id, date, checksum,
size, valid)`.  `csv.writerow` renders `None` as an empty field.  (The
source names this method `export`, which is a keyword in Lean, hence the
trailing underscore.) -/
def export_ (version_uid : String) (s : State) : Except Err Dump :=
  let blocks := get_blocks_by_version version_uid s
  match get_version version_uid s with
  | none => .error .keyError
  | some version =>
    .ok { signature := "backy2 Version " ++ METADATA_VERSION ++ " metadata dump"
          version_row := [.str version.uid, .str version.date, .str version.name,
            .num version.size, .num version.size_bytes, .num version.valid]
          block_rows := blocks.map (fun b =>
            [.str (b.uid.getD ""), .str b.version_uid, .num b.id, .str b.date,
              .str (b.checksum.getD ""), .num b.size, .num b.valid]) }

/-- Parse one exported block line back into a row.  Every field of the
CSV is text: the nullable TEXT columns `uid` and `checksum` therefore
receive the field itself — never NULL, an empty field included. -/
def importBlockRow (cells : List Cell) : Except Err BlockRow :=
  match cells with
  | [c_uid, c_version_uid, c_id, c_date, c_checksum, c_size, c_valid] =>
    .ok { uid := some c_uid.toColumnStr
          version_uid := c_version_uid.toColumnStr
          id := c_id.toColumnNat
          date := c_date.toColumnStr
          checksum := some c_checksum.toColumnStr
          size := c_size.toColumnNat
          valid := c_valid.toColumnNat }
  | _ => .error .valueError

/-- `MetaBackend.import_`: check the signature line, refuse (KeyError) a
version uid that already exists, insert the version row and then every
block row.  No refcount row is touched. -/
def import_ (f : Dump) (s : State) : Except Err State :=
  if f.signature ≠ "backy2 Version " ++ METADATA_VERSION ++ " metadata dump" then
    .error .valueError
  else
    match f.version_row with
    | [c_uid, c_date, c_name, c_size, c_size_bytes, c_valid] =>
      let version_uid := c_uid.toColumnStr
      match get_version version_uid s with
      | some _ => .error .keyError
      | none =>
        let version : VersionRow :=
          { uid := version_uid, date := c_date.toColumnStr, name := c_name.toColumnStr,
            size := c_size.toColumnNat, size_bytes := c_size_bytes.toColumnNat,
            valid := c_valid.toColumnNat }
        match foldE (fun (bs : List BlockRow) cells =>
            (importBlockRow cells).map (fun b => bs ++ [b])) [] f.block_rows with
        | .error e => .error e
        | .ok new_blocks =>
          .ok { s with versions := s.versions ++ [version], blocks := s.blocks ++ new_blocks }
    | _ => .error .valueError

/-- The refcount value recorded for a uid: the `refs` column of its row,
0 when the uid has no row. -/
def refsOf (s : State) (u : String) : Int :=
  match s.refs.find? (fun r => r.uid == u) with
  | some r => r.refs
  | none => 0

/-- The number of block rows referencing a blob uid. -/
def blockCount (s : State) (u : String) : Nat :=
  (s.blocks.filter (fun b => b.uid == some u)).length

/-- The refcount invariant of the spec: for every blob uid, the recorded
refcount equals the number of block rows carrying it (sparse blocks,
having no uid, are never counted). -/
def RefInv (s : State) : Prop :=
  ∀ u : String, refsOf s u = blockCount s u

end MetaBackend

/-- A concrete stand-in for the SHA-512 hex digest used in the closed
test scenarios: length and byte sum, which is injective on the data
appearing in those scenarios.  The engine functions take the hash as a
parameter, since nothing but digest equality matters to them. -/
def demoHash (b : Bytes) : String :=
  toString b.length ++ "-" ++ toString (b.foldl (· + ·) 0)

end Backy2

namespace Backy2

/-! ### Generic helper lemmas -/

theorem foldE_append (f : σ → α → Except ε σ) (s : σ) (l₁ l₂ : List α) :
    foldE f s (l₁ ++ l₂) =
      match foldE f s l₁ with
      | .ok s' => foldE f s' l₂
      | .error e => .error e := by
  induction l₁ generalizing s with
  | nil => rfl
  | cons x xs ih =>
    simp only [List.cons_append, foldE]
    cases f s x with
    | ok s' => exact ih s'
    | error e => rfl

theorem find?_decomp {p : α → Bool} {l : List α} {b : α} (h : l.find? p = some b)
    (f : α → α) :
    ∃ l₁ l₂, l = l₁ ++ b :: l₂ ∧ p b = true ∧ (∀ x ∈ l₁, p x = false) ∧
      updateFirst p f l = l₁ ++ f b :: l₂ := by
  induction l with
  | nil => simp [List.find?] at h
  | cons x xs ih =>
    by_cases hx : p x
    · refine ⟨[], xs, ?_, ?_, ?_, ?_⟩ <;>
        simp_all [List.find?_cons_of_pos, updateFirst]
    · rw [List.find?_cons_of_neg _ (by simpa using hx)] at h
      obtain ⟨l₁, l₂, rfl, hb, hl₁, hupd⟩ := ih h
      refine ⟨x :: l₁, l₂, rfl, hb, ?_, ?_⟩
      · intro y hy
        rcases List.mem_cons.1 hy with rfl | hy
        · simpa using hx
        · exact hl₁ y hy
      · simp [updateFirst, hx, hupd]

theorem find?_isNone_of_all_neg {p : α → Bool} {l : List α}
    (h : ∀ x ∈ l, p x = false) : l.find? p = none := by
  induction l with
  | nil => rfl
  | cons x xs ih =>
    rw [List.find?_cons_of_neg _ (by simp [h x (List.mem_cons_self x xs)])]
    exact ih fun y hy => h y (List.mem_cons_of_mem x hy)

theorem mem_foldl_insert (l : List Nat) (s : Finset Nat) (i : Nat) :
    i ∈ l.foldl (fun acc j => insert j acc) s ↔ i ∈ s ∨ i ∈ l := by
  induction l generalizing s with
  | nil => simp
  | cons x xs ih =>
    simp only [List.foldl_cons, ih, Finset.mem_insert, List.mem_cons]
    tauto

/-! ### C7 — `blocks_from_hints` -/

theorem mem_blocks_from_hints (hints : List (Nat × Nat × Bool)) (B : Nat) (hB : 0 < B)
    (i : Nat) :
    i ∈ blocks_from_hints hints B ↔
      ∃ h ∈ hints, h.1 / B ≤ i ∧ i < (h.1 + h.2.1 + B - 1) / B := by
  suffices H : ∀ s : Finset Nat, i ∈ hints.foldl (fun blocks h =>
      (List.range' (h.1 / B) ((h.1 + h.2.1 + B - 1) / B - h.1 / B)).foldl
        (fun acc j => insert j acc) blocks) s ↔
      i ∈ s ∨ ∃ h ∈ hints, h.1 / B ≤ i ∧ i < (h.1 + h.2.1 + B - 1) / B by
    simpa [blocks_from_hints] using H ∅
  induction hints with
  | nil => simp
  | cons h hs ih =>
    intro s
    have hle : h.1 / B ≤ (h.1 + h.2.1 + B - 1) / B :=
      Nat.div_le_div_right (by omega)
    simp only [List.foldl_cons, ih, mem_foldl_insert, List.mem_range'_1, List.mem_cons]
    constructor
    · rintro (((h1 | ⟨h2, h3⟩) ) | ⟨w, hw, hws⟩)
      · exact Or.inl h1
      · exact Or.inr ⟨h, Or.inl rfl, h2, by omega⟩
      · exact Or.inr ⟨w, Or.inr hw, hws⟩
    · rintro (h1 | ⟨w, (rfl | hw), hws⟩)
      · exact Or.inl (Or.inl h1)
      · exact Or.inl (Or.inr ⟨hws.1, by omega⟩)
      · exact Or.inr ⟨w, hw, hws⟩

/-- C7: `blocks_from_hints(hints, B)` is exactly the union over the
hints `(offset, length, exists)` of the integer intervals
`[offset / B, ceil((offset + length) / B))` (over naturals the ceiling
quotient is `(offset + length + B - 1) / B`); concretely, with
`B = 4096·1024`, the hint `(0, B - 1, true)` yields `{0}` and the hint
`(B - 1, 2, true)` yields `{0, 1}`. -/
theorem blocks_from_hints_spec :
    (∀ (hints : List (Nat × Nat × Bool)) (B : Nat), 0 < B → ∀ i : Nat,
      i ∈ blocks_from_hints hints B ↔
        ∃ h ∈ hints, h.1 / B ≤ i ∧ i < (h.1 + h.2.1 + B - 1) / B) ∧
    blocks_from_hints [(0, 4096 * 1024 - 1, true)] (4096 * 1024) = {0} ∧
    blocks_from_hints [(4096 * 1024 - 1, 2, true)] (4096 * 1024) = {0, 1} :=
  ⟨mem_blocks_from_hints, by decide, by decide⟩

/-- C7 witness: the general part of `blocks_from_hints_spec` applied to
a concrete hint list. -/
theorem blocks_from_hints_spec_witness :
    0 ∈ blocks_from_hints [(2, 3, true)] 4 :=
  (blocks_from_hints_spec.1 [(2, 3, true)] 4 (by decide) 0).mpr
    ⟨(2, 3, true), by decide, by decide, by decide⟩

/-! ### C1 — the dedup lookup and the `valid` flag -/

/-- C1 counterexample: `backy.py`'s `SQLBackend.get_block_by_checksum` —
the dedup lookup that `Backy.backup` actually calls — has no filter on
`valid` and here returns a block row whose valid flag is 0, so an
invalidated uid *can* be chosen for reuse during backup in `backy.py`. -/
theorem get_block_by_checksum_returns_invalid :
    SQLBackend.get_block_by_checksum "c"
        ⟨[], [⟨some "u", "v", 0, some "c", 4, 0⟩], 0⟩ =
      some ⟨some "u", "v", 0, some "c", 4, 0⟩ ∧
    (⟨some "u", "v", 0, some "c", 4, 0⟩ : SQLBackend.BlockRow).valid = 0 := by
  decide

/-- C1 (amended): `meta_backends/sql.py`'s `MetaBackend.
get_block_by_checksum` returns only a block whose valid flag is 1 (and
whose checksum is the requested one), so dedup through *that* backend
never reuses an invalidated uid; the older `SQLBackend` lookup in
`backy.py` lacks the validity filter. -/
theorem get_block_by_checksum_only_valid (s : Backy2.MetaBackend.State) (cs : String)
    (b : Backy2.MetaBackend.BlockRow)
    (h : MetaBackend.get_block_by_checksum cs s = some b) :
    b.valid = 1 ∧ b.checksum = some cs := by
  have hp := List.find?_some h
  simp only [Bool.and_eq_true, beq_iff_eq] at hp
  exact ⟨hp.2, hp.1⟩

/-- C1 witness: the amended theorem applied to a concrete state in which
the lookup succeeds. -/
theorem get_block_by_checksum_only_valid_witness :
    (⟨some "u", "v", 0, "d", some "c", 4, 1⟩ : Backy2.MetaBackend.BlockRow).valid = 1 ∧
    (⟨some "u", "v", 0, "d", some "c", 4, 1⟩ : Backy2.MetaBackend.BlockRow).checksum =
      some "c" :=
  get_block_by_checksum_only_valid
    ⟨[], [⟨some "u", "v", 0, "d", some "c", 4, 1⟩], []⟩ "c"
    ⟨some "u", "v", 0, "d", some "c", 4, 1⟩ (by decide)

/-! ### C3 — the backup main loop dispatch -/

/-- C3: the dispatch of the backup main loop.  For every block of the
new version: when its id is in `read_blocks` *or* the block is invalid,
the step is exactly the read-and-rewrite path (`backupReadBlock`); when
neither holds and its id is in `sparse_blocks`, the block row is reset
to sparse-valid (`uid` and `checksum` null, `valid` 1, size kept) and the
data backend untouched; otherwise nothing changes.  In particular a block
id lying in both `read_blocks` and `sparse_blocks` takes the read path —
the first conjunct needs only membership in `read_blocks`. -/
theorem backup_loop_dispatch (hash : Bytes → String) (B : Nat) (source : Bytes)
    (read_blocks sparse_blocks : Finset Nat) (version_uid : String)
    (acc : SQLBackend.State × DataState) (block : SQLBackend.BlockRow) :
    (block.id ∈ read_blocks ∨ block.valid = 0 →
      Backy.backupStep hash B source read_blocks sparse_blocks version_uid acc block =
        Backy.backupReadBlock hash B source version_uid acc block) ∧
    (block.id ∉ read_blocks → block.valid ≠ 0 → block.id ∈ sparse_blocks →
      Backy.backupStep hash B source read_blocks sparse_blocks version_uid acc block =
        .ok (SQLBackend.set_block block.id version_uid none none block.size 1 acc.1,
          acc.2)) ∧
    (block.id ∉ read_blocks → block.valid ≠ 0 → block.id ∉ sparse_blocks →
      Backy.backupStep hash B source read_blocks sparse_blocks version_uid acc block =
        .ok acc) := by
  refine ⟨fun h => ?_, fun h1 h2 h3 => ?_, fun h1 h2 h3 => ?_⟩
  · simp [Backy.backupStep, h]
  · simp [Backy.backupStep, h1, h2, h3]
  · simp [Backy.backupStep, h1, h2, h3]

/-- C3 witness: a block whose id is hinted both for reading and as
sparse is read (the first conjunct of `backup_loop_dispatch`), here on a
concrete invalid-free state. -/
theorem backup_loop_dispatch_witness :
    Backy.backupStep demoHash 4 [7, 7, 7, 7] {0} {0} "v" (⟨[], [], 0⟩, ⟨0, []⟩)
        ⟨none, "v", 0, none, 4, 1⟩ =
      Backy.backupReadBlock demoHash 4 [7, 7, 7, 7] "v" (⟨[], [], 0⟩, ⟨0, []⟩)
        ⟨none, "v", 0, none, 4, 1⟩ :=
  (backup_loop_dispatch demoHash 4 [7, 7, 7, 7] {0} {0} "v" (⟨[], [], 0⟩, ⟨0, []⟩)
    ⟨none, "v", 0, none, 4, 1⟩).1 (Or.inl (by decide))

/-! ### C5 — backup of a 10-byte source with an empty hint list -/

/-- C5 counterexample: `backup("v1", 10 zero bytes, hints=[], from=None)`
with block size 4 does *not* leave the three blocks sparse-valid and does
*not* write zero bytes: `if hints:` treats the empty hint list like no
hints at all, so every block is read.  After the run, "every block is
sparse (null uid)" is false and "the blob store is empty" is false. -/
theorem backup_empty_hints_not_sparse :
    (Backy.backup demoHash 4 "v1" (List.replicate 10 0) (some []) none
        ⟨[], [], 0⟩ ⟨0, []⟩).map
      (fun r => ((SQLBackend.get_blocks_by_version r.2.2 r.1).all
          (fun b => b.uid == none), r.2.1.store.isEmpty)) =
      .ok (false, false) := by
  decide

set_option synthInstance.maxSize 512 in
/-- C5 (amended): a backup of a 10-byte (all-zero) source with
`hints=[]` and no base version, block size 4, creates a valid version of
3 blocks of sizes 4, 4, 2 — but, because the empty hint list is falsy in
`if hints:` and therefore behaves exactly like `hints=None`, all three
blocks are read and stored: blocks 0 and 1 share one deduplicated blob,
block 2 gets a second blob, and two blobs (6 bytes) are written to the
data backend.  An all-sparse, zero-write backup requires a non-empty
hint list marking the range non-existent instead. -/
theorem backup_empty_hints_reads_all :
    (Backy.backup demoHash 4 "v1" (List.replicate 10 0) (some []) none
        ⟨[], [], 0⟩ ⟨0, []⟩).map
      (fun r => ((SQLBackend.get_blocks_by_version r.2.2 r.1).map
          (fun b => (b.id, b.uid, b.checksum, b.size, b.valid)),
        (SQLBackend.get_version r.2.2 r.1).map (fun v => v.valid),
        r.2.1.store)) =
      .ok ([(0, some "blob-0", some "4-0", 4, 1),
            (1, some "blob-0", some "4-0", 4, 1),
            (2, some "blob-1", some "2-0", 2, 1)],
           some 1,
           [("blob-0", [0, 0, 0, 0]), ("blob-1", [0, 0])]) := by
  decide

/-! ### C6 — cleanup of unreferenced blobs -/

theorem rm_of_mem {db : DataState} {u : String} (h : u ∈ db.store.map Prod.fst) :
    FileBackend.rm db u = .ok { db with store := db.store.filter (fun p => p.1 != u) } := by
  have : db.store.any (fun p => p.1 == u) = true := by
    rcases List.mem_map.1 h with ⟨p, hp, rfl⟩
    exact List.any_eq_true.2 ⟨p, hp, by simp⟩
  simp [FileBackend.rm, this]

theorem cleanup_rm_loop (C : List String) : ∀ (db : DataState), C.Nodup →
    (∀ u ∈ C, u ∈ db.store.map Prod.fst) →
    Backy.cleanup_rm_candidates C db =
      .ok ⟨db.counter, db.store.filter (fun p => !C.contains p.1)⟩ := by
  induction C with
  | nil =>
    intro db _ _
    simp [Backy.cleanup_rm_candidates, foldE]
  | cons c cs ih =>
    intro db hnd hmem
    have hc : c ∈ db.store.map Prod.fst := hmem c (List.mem_cons_self c cs)
    have hrm := rm_of_mem hc
    have hrest : ∀ u ∈ cs, u ∈ (db.store.filter (fun p => p.1 != c)).map Prod.fst := by
      intro u hu
      rcases List.mem_map.1 (hmem u (List.mem_cons_of_mem c hu)) with ⟨p, hp, rfl⟩
      have hne : p.1 ≠ c := fun he => (List.nodup_cons.1 hnd).1 (he ▸ hu)
      exact List.mem_map.2 ⟨p, List.mem_filter.2 ⟨hp, by simpa using hne⟩, rfl⟩
    have ihc := ih { db with store := db.store.filter (fun p => p.1 != c) }
      (List.nodup_cons.1 hnd).2 hrest
    have hstore : (db.store.filter (fun p => p.1 != c)).filter (fun p => !cs.contains p.1) =
        db.store.filter (fun p => !(c :: cs).contains p.1) := by
      rw [List.filter_filter]
      apply List.filter_congr
      intro p _
      by_cases h1 : p.1 = c <;> by_cases h2 : cs.contains p.1 <;> simp [h1, h2]
    simp only [Backy.cleanup_rm_candidates, foldE, hrm] at ihc ⊢
    rw [ihc, hstore]

/-- C6 (amended): `Backy.cleanup` removes exactly the blob uids present
in the data backend but referenced by no block row of the meta backend —
every unreferenced blob is removed and no referenced blob is ever
deleted; however, a candidate whose blob has already gone missing is
*not* silently skipped: `FileBackend.rm` raises `FileNotFoundError`,
nothing catches it, and the run fails (see the counterexample). -/
theorem cleanup_spec (s : SQLBackend.State) (db : DataState)
    (hnd : (db.store.map Prod.fst).Nodup) :
    Backy.cleanup s db =
      .ok ⟨db.counter, db.store.filter
        (fun p => (SQLBackend.get_all_block_uids s).contains (some p.1))⟩ := by
  unfold Backy.cleanup
  set meta_uids := SQLBackend.get_all_block_uids s with hmeta
  have hsub : ∀ u ∈ ((FileBackend.get_all_blob_uids db).filter
      (fun u => !meta_uids.contains (some u))).dedup, u ∈ db.store.map Prod.fst := by
    intro u hu
    have := List.mem_filter.1 (List.mem_dedup.1 hu)
    simpa [FileBackend.get_all_blob_uids] using this.1
  rw [cleanup_rm_loop _ db (List.nodup_dedup _) hsub]
  have hstore : db.store.filter (fun p =>
        !((FileBackend.get_all_blob_uids db).filter
          (fun u => !meta_uids.contains (some u))).dedup.contains p.1) =
      db.store.filter (fun p => meta_uids.contains (some p.1)) := by
    apply List.filter_congr
    intro p hp
    set ds := ((FileBackend.get_all_blob_uids db).filter
      (fun u => !meta_uids.contains (some u))).dedup with hds
    have hpm : p.1 ∈ (FileBackend.get_all_blob_uids db) :=
      List.mem_map.2 ⟨p, hp, rfl⟩
    cases h : meta_uids.contains (some p.1) with
    | true =>
      have hnot : ¬ p.1 ∈ ds := by
        intro hc
        have h2 := (List.mem_filter.1 (List.mem_dedup.1 hc)).2
        rw [h] at h2
        simp at h2
      have hdc : ds.contains p.1 = false := by
        cases hcc : ds.contains p.1
        · rfl
        · exact absurd (List.elem_iff.1 hcc) hnot
      rw [hdc]
      rfl
    | false =>
      have hin : p.1 ∈ ds :=
        List.mem_dedup.2 (List.mem_filter.2 ⟨hpm, by rw [h]; rfl⟩)
      have hdc : ds.contains p.1 = true := List.elem_iff.2 hin
      rw [hdc]
      rfl
  rw [hstore]

/-- C6 witness: a store holding one referenced and one unreferenced
blob; cleanup removes exactly the unreferenced one. -/
theorem cleanup_spec_witness :
    Backy.cleanup ⟨[], [⟨some "keep", "v", 0, some "c", 4, 1⟩], 0⟩
        ⟨2, [("keep", [1, 2]), ("junk", [3])]⟩ =
      .ok ⟨2, [("keep", [1, 2])]⟩ :=
  cleanup_spec ⟨[], [⟨some "keep", "v", 0, some "c", 4, 1⟩], 0⟩
    ⟨2, [("keep", [1, 2]), ("junk", [3])]⟩ (by decide)

/-- C6 counterexample: a removal candidate whose blob is already missing
(the file disappeared between the enumeration walk and the unlink, e.g.
removed by a concurrent actor) is not skipped — `FileBackend.rm` raises
`FileNotFoundError` and the cleanup loop aborts with it. -/
theorem cleanup_missing_candidate_fails :
    FileBackend.rm ⟨0, []⟩ "u" = .error .fileNotFoundError ∧
    Backy.cleanup_rm_candidates ["u"] ⟨0, []⟩ = .error .fileNotFoundError := by
  decide

/-! ### C10 — restore aborts on a blob length mismatch -/

/-- C10: during restore, a non-sparse block whose blob is readable but
whose byte length differs from the block's recorded size makes the run
fail with an `AssertionError` *before* writing that block — the write
log carried out of the aborted run is exactly the log accumulated before
this block, and the meta state is untouched (in particular the block was
not marked invalid, unlike the checksum-mismatch path which writes the
data, calls `set_blocks_invalid` and continues). -/
theorem restore_length_mismatch (hash : Bytes → String) (B : Nat) (vuid : String)
    (sparse : Bool) (s : SQLBackend.State) (db : DataState)
    (version : SQLBackend.VersionRow) (pre post : List SQLBackend.BlockRow)
    (b : SQLBackend.BlockRow) (f : Backy.FileState) (meta : SQLBackend.State)
    (u : String) (data : Bytes)
    (hv : SQLBackend.get_version vuid s = some version)
    (hblocks : SQLBackend.get_blocks_by_version vuid s = pre ++ b :: post)
    (hpre : foldE (Backy.restoreStep hash B db sparse) (⟨0, []⟩, s) pre = .ok (f, meta))
    (hu : b.uid = some u)
    (hread : FileBackend.read db u = .ok data)
    (hlen : data.length ≠ b.size) :
    Backy.restore hash B vuid sparse s db =
      .error (.assertionError, ⟨b.id * B, f.writes⟩, meta) := by
  have hstep : Backy.restoreStep hash B db sparse (f, meta) b =
      .error (.assertionError, ⟨b.id * B, f.writes⟩, meta) := by
    unfold Backy.restoreStep
    rw [hu]
    simp [hread, hlen]
  simp only [Backy.restore, hv, hblocks, foldE_append, hpre, foldE, hstep]

/-- C10 witness: a concrete version whose single block records size 3
while its blob holds 2 bytes; restore aborts with the assertion error,
an empty write log and the meta state unchanged. -/
theorem restore_length_mismatch_witness :
    Backy.restore demoHash 4 "v" false
        ⟨[⟨"v", "n", 1, 3, 1⟩], [⟨some "u", "v", 0, some "c", 3, 1⟩], 1⟩
        ⟨1, [("u", [1, 2])]⟩ =
      .error (.assertionError, ⟨0, []⟩,
        ⟨[⟨"v", "n", 1, 3, 1⟩], [⟨some "u", "v", 0, some "c", 3, 1⟩], 1⟩) :=
  restore_length_mismatch demoHash 4 "v" false
    ⟨[⟨"v", "n", 1, 3, 1⟩], [⟨some "u", "v", 0, some "c", 3, 1⟩], 1⟩
    ⟨1, [("u", [1, 2])]⟩ ⟨"v", "n", 1, 3, 1⟩ [] []
    ⟨some "u", "v", 0, some "c", 3, 1⟩ ⟨0, []⟩
    ⟨[⟨"v", "n", 1, 3, 1⟩], [⟨some "u", "v", 0, some "c", 3, 1⟩], 1⟩
    "u" [1, 2] (by decide) (by decide) rfl rfl (by decide) (by decide)

/-! ### C8 — scrub with a drifted source -/

/-- The per-block source comparison that `Backy.scrub` performs when the
blob itself is healthy: `True` for a sparse block, and for a stored
block the equality of the source's bytes at the block's offset with the
blob's bytes. -/
theorem scrub_loop_healthy (hash : Bytes → String) (B : Nat) (skip : Nat → Bool)
    (db : DataState) (src : Bytes) (s : SQLBackend.State)
    (blocks : List SQLBackend.BlockRow) (st : Bool)
    (hhealthy : ∀ b ∈ blocks, ∀ u : String, b.uid = some u →
      ∃ data : Bytes, FileBackend.read db u = .ok data ∧ data.length = b.size ∧
        b.checksum = some (hash data)) :
    foldE (Backy.scrubStep hash B 100 skip db (some src)) (st, s) blocks =
      .ok (st && blocks.all (fun b =>
        match b.uid with
        | none => true
        | some u =>
          match FileBackend.read db u with
          | .ok data => (src.drop (b.id * B)).take b.size == data
          | .error _ => false), s) := by
  induction blocks generalizing st with
  | nil => simp [foldE]
  | cons b bs ih =>
    have hb := hhealthy b (List.mem_cons_self b bs)
    have hrest : ∀ x ∈ bs, ∀ u : String, x.uid = some u →
        ∃ data : Bytes, FileBackend.read db u = .ok data ∧ data.length = x.size ∧
          x.checksum = some (hash data) :=
      fun x hx => hhealthy x (List.mem_cons_of_mem b hx)
    cases huid : b.uid with
    | none =>
      have hstep : Backy.scrubStep hash B 100 skip db (some src) (st, s) b = .ok (st, s) := by
        unfold Backy.scrubStep
        rw [huid]
      have h1 : foldE (Backy.scrubStep hash B 100 skip db (some src)) (st, s) (b :: bs) =
          foldE (Backy.scrubStep hash B 100 skip db (some src)) (st, s) bs := by
        simp only [foldE, hstep]
      rw [h1, ih st hrest]
      simp only [List.all_cons, huid, Bool.true_and]
    | some u =>
      obtain ⟨data, hread, hlen, hcs⟩ := hb u huid
      have hstep : Backy.scrubStep hash B 100 skip db (some src) (st, s) b =
          .ok (st && ((src.drop (b.id * B)).take b.size == data), s) := by
        unfold Backy.scrubStep
        rw [huid]
        simp only [hread, hlen, hcs]
        by_cases hsd : (src.drop (b.id * B)).take b.size = data <;> simp [hsd]
      have h1 : foldE (Backy.scrubStep hash B 100 skip db (some src)) (st, s) (b :: bs) =
          foldE (Backy.scrubStep hash B 100 skip db (some src))
            (st && ((src.drop (b.id * B)).take b.size == data), s) bs := by
        simp only [foldE, hstep]
      rw [h1, ih _ hrest]
      simp only [List.all_cons, huid, hread]
      rw [Bool.and_assoc]

/-- C8: when every stored blob of the version matches its recorded
length and checksum (so no block is corrupt) but the source bytes of at
least one block differ from that block's blob, `scrub` with that source
(at the default `percentile = 100`) returns `False` and leaves the meta
backend completely unchanged — no `set_blocks_invalid` call, no block
row or version validity change. -/
theorem scrub_source_drift (hash : Bytes → String) (B : Nat) (skip : Nat → Bool)
    (vuid : String) (src : Bytes) (s : SQLBackend.State) (db : DataState)
    (version : SQLBackend.VersionRow)
    (hv : SQLBackend.get_version vuid s = some version)
    (hhealthy : ∀ b ∈ SQLBackend.get_blocks_by_version vuid s, ∀ u : String,
      b.uid = some u →
      ∃ data : Bytes, FileBackend.read db u = .ok data ∧ data.length = b.size ∧
        b.checksum = some (hash data))
    (hdrift : ∃ b ∈ SQLBackend.get_blocks_by_version vuid s, ∃ u : String,
      b.uid = some u ∧ ∃ data : Bytes, FileBackend.read db u = .ok data ∧
        (src.drop (b.id * B)).take b.size ≠ data) :
    Backy.scrub hash B vuid (some src) 100 skip s db = .ok (false, s) := by
  unfold Backy.scrub
  rw [hv, scrub_loop_healthy hash B skip db src s _ true hhealthy]
  obtain ⟨b, hb, u, hu, data, hread, hne⟩ := hdrift
  have hfalse : (SQLBackend.get_blocks_by_version vuid s).all (fun b =>
      match b.uid with
      | none => true
      | some u =>
        match FileBackend.read db u with
        | .ok data => (src.drop (b.id * B)).take b.size == data
        | .error _ => false) = false := by
    cases hall : (SQLBackend.get_blocks_by_version vuid s).all (fun b =>
        match b.uid with
        | none => true
        | some u =>
          match FileBackend.read db u with
          | .ok data => (src.drop (b.id * B)).take b.size == data
          | .error _ => false) with
    | false => rfl
    | true =>
      exfalso
      have hbt := List.all_eq_true.1 hall b hb
      simp only [hu, hread, beq_iff_eq] at hbt
      exact hne hbt
  rw [hfalse]
  rfl

/-- C8 witness: one healthy stored block whose source bytes drifted;
scrub returns `False` with the meta state unchanged. -/
theorem scrub_source_drift_witness :
    Backy.scrub demoHash 4 "v" (some [9, 9]) 100 (fun _ => false)
        ⟨[⟨"v", "n", 1, 2, 1⟩], [⟨some "u", "v", 0, some (demoHash [1, 2]), 2, 1⟩], 1⟩
        ⟨1, [("u", [1, 2])]⟩ =
      .ok (false, ⟨[⟨"v", "n", 1, 2, 1⟩],
        [⟨some "u", "v", 0, some (demoHash [1, 2]), 2, 1⟩], 1⟩) :=
  scrub_source_drift demoHash 4 (fun _ => false) "v" [9, 9]
    ⟨[⟨"v", "n", 1, 2, 1⟩], [⟨some "u", "v", 0, some (demoHash [1, 2]), 2, 1⟩], 1⟩
    ⟨1, [("u", [1, 2])]⟩ ⟨"v", "n", 1, 2, 1⟩ (by decide)
    (by
      intro b hb u hu
      rw [show SQLBackend.get_blocks_by_version "v"
          ⟨[⟨"v", "n", 1, 2, 1⟩], [⟨some "u", "v", 0, some (demoHash [1, 2]), 2, 1⟩], 1⟩ =
          [⟨some "u", "v", 0, some (demoHash [1, 2]), 2, 1⟩] from by decide] at hb
      rcases List.mem_singleton.1 hb with rfl
      simp only [Option.some.injEq] at hu
      subst hu
      exact ⟨[1, 2], rfl, rfl, rfl⟩)
    ⟨⟨some "u", "v", 0, some (demoHash [1, 2]), 2, 1⟩, by decide, "u", rfl,
      [1, 2], rfl, by decide⟩

/-! ### C2 — the refcount invariant -/

theorem find?_updateFirst_of_ne {w u : String} (h : w ≠ u)
    (f : MetaBackend.RefRow → MetaBackend.RefRow)
    (hf : ∀ r, (f r).uid = r.uid) (l : List MetaBackend.RefRow) :
    (updateFirst (fun r => r.uid == w) f l).find? (fun r => r.uid == u) =
      l.find? (fun r => r.uid == u) := by
  induction l with
  | nil => rfl
  | cons r rs ih =>
    by_cases hr : r.uid = w
    · have h1 : (r.uid == w) = true := by simpa using hr
      have h2 : (r.uid == u) = false := by simp [hr, h]
      have h3 : ((f r).uid == u) = false := by simp [hf, hr, h]
      simp [updateFirst, h1, List.find?_cons, h2, h3]
    · have h1 : (r.uid == w) = false := by simpa using hr
      by_cases hu : r.uid = u
      · have h2 : (r.uid == u) = true := by simpa using hu
        simp [updateFirst, h1, List.find?_cons, h2]
      · have h2 : (r.uid == u) = false := by simpa using hu
        simp [updateFirst, h1, List.find?_cons, h2, ih]

theorem find?_updateFirst_of_eq (u : String)
    (f : MetaBackend.RefRow → MetaBackend.RefRow)
    (hf : ∀ r, (f r).uid = r.uid) (l : List MetaBackend.RefRow) :
    (updateFirst (fun r => r.uid == u) f l).find? (fun r => r.uid == u) =
      (l.find? (fun r => r.uid == u)).map f := by
  induction l with
  | nil => rfl
  | cons r rs ih =>
    by_cases hr : r.uid = u
    · have h1 : (r.uid == u) = true := by simpa using hr
      have h3 : ((f r).uid == u) = true := by simp [hf, hr]
      simp [updateFirst, h1, List.find?_cons, h3]
    · have h1 : (r.uid == u) = false := by simpa using hr
      simp [updateFirst, h1, List.find?_cons, ih]

theorem refsOf_ref_add (s : Backy2.MetaBackend.State) (w : Option String) (u : String) :
    MetaBackend.refsOf (MetaBackend.ref_add w s) u =
      MetaBackend.refsOf s u + (if w = some u then 1 else 0) := by
  cases w with
  | none => simp [MetaBackend.ref_add]
  | some w =>
    unfold MetaBackend.ref_add MetaBackend.refsOf
    dsimp only
    by_cases hex : s.refs.any (fun r => r.uid == w)
    · rw [if_pos hex]
      by_cases hwu : w = u
      · subst hwu
        rw [find?_updateFirst_of_eq w (fun r => { r with refs := r.refs + 1 })
          (fun r => rfl)]
        obtain ⟨r, hr, hpr⟩ := List.any_eq_true.1 hex
        cases hfind : s.refs.find? (fun r => r.uid == w) with
        | none => exact absurd (List.find?_eq_none.1 hfind r hr) (by simp [hpr])
        | some r0 => simp
      · rw [find?_updateFirst_of_ne hwu (fun r => { r with refs := r.refs + 1 })
          (fun r => rfl)]
        simp [hwu]
    · have hnone : s.refs.find? (fun r => r.uid == w) = none := by
        cases hf2 : s.refs.find? (fun r => r.uid == w) with
        | none => rfl
        | some rr =>
          exact absurd (List.any_eq_true.2
            ⟨rr, List.mem_of_find?_eq_some hf2, List.find?_some hf2⟩) hex
      rw [if_neg hex, List.find?_append]
      by_cases hwu : w = u
      · subst hwu
        rw [hnone]
        simp [List.find?]
      · have hne : (w == u) = false := by simpa using hwu
        have h2 : ([(⟨w, 1⟩ : Backy2.MetaBackend.RefRow)].find?
            (fun r => r.uid == u)) = none := by
          simp [List.find?, hne]
        rw [h2]
        cases hf3 : s.refs.find? (fun r => r.uid == u) <;> simp [Option.or, hwu]

theorem ref_add_blocks (s : Backy2.MetaBackend.State) (w : Option String) :
    (MetaBackend.ref_add w s).blocks = s.blocks := by
  cases w with
  | none => rfl
  | some w =>
    unfold MetaBackend.ref_add
    by_cases hex : s.refs.any (fun r => r.uid == w) <;> simp [hex]

theorem ref_add_versions (s : Backy2.MetaBackend.State) (w : Option String) :
    (MetaBackend.ref_add w s).versions = s.versions := by
  cases w with
  | none => rfl
  | some w =>
    unfold MetaBackend.ref_add
    by_cases hex : s.refs.any (fun r => r.uid == w) <;> simp [hex]

theorem refsOf_ref_del (s s' : Backy2.MetaBackend.State) (w : Option String) (u : String)
    (h : MetaBackend.ref_del w s = .ok s') :
    MetaBackend.refsOf s' u = MetaBackend.refsOf s u - (if w = some u then 1 else 0) ∧
    s'.blocks = s.blocks ∧ s'.versions = s.versions := by
  cases w with
  | none =>
    unfold MetaBackend.ref_del at h
    cases h
    simp
  | some w =>
    unfold MetaBackend.ref_del at h
    dsimp only at h
    by_cases hex : s.refs.any (fun r => r.uid == w)
    · rw [if_pos hex] at h
      cases h
      refine ⟨?_, rfl, rfl⟩
      unfold MetaBackend.refsOf
      by_cases hwu : w = u
      · subst hwu
        rw [find?_updateFirst_of_eq w (fun r => { r with refs := r.refs - 1 })
          (fun r => rfl)]
        obtain ⟨r, hr, hpr⟩ := List.any_eq_true.1 hex
        cases hfind : s.refs.find? (fun r => r.uid == w) with
        | none => exact absurd (List.find?_eq_none.1 hfind r hr) (by simp [hpr])
        | some r0 => simp
      · rw [find?_updateFirst_of_ne hwu (fun r => { r with refs := r.refs - 1 })
          (fun r => rfl)]
        simp [hwu]
    · rw [if_neg hex] at h
      cases h

theorem blockCount_update (s : Backy2.MetaBackend.State) (l₁ l₂ : List MetaBackend.BlockRow)
    (b₀ b₁ : MetaBackend.BlockRow) (u : String)
    (h : s.blocks = l₁ ++ b₀ :: l₂) :
    (MetaBackend.blockCount s u : Int) =
      ((l₁.filter (fun b => b.uid == some u)).length : Int) +
      (if b₀.uid = some u then 1 else 0) +
      ((l₂.filter (fun b => b.uid == some u)).length : Int) := by
  unfold MetaBackend.blockCount
  rw [h]
  by_cases hb : b₀.uid = some u
  · have : (b₀.uid == some u) = true := by simpa using hb
    simp [List.filter_append, List.filter_cons, this, hb]
    omega
  · have : (b₀.uid == some u) = false := by simpa using hb
    simp [List.filter_append, List.filter_cons, this, hb]

theorem set_block_preserves_refinv (now : String) (id : Nat) (vuid : String)
    (buid checksum : Option String) (size valid : Nat) (upsert : Bool)
    (s s' : Backy2.MetaBackend.State) (hinv : MetaBackend.RefInv s)
    (hrun : MetaBackend.set_block now id vuid buid checksum size valid upsert s = .ok s') :
    MetaBackend.RefInv s' := by
  unfold MetaBackend.set_block at hrun
  dsimp only at hrun
  split at hrun
  next block heq =>
    have hfind : s.blocks.find? (fun b => b.id == id && b.version_uid == vuid) =
        some block := by
      cases hup : upsert with
      | true => rw [hup] at heq; simpa using heq
      | false => rw [hup] at heq; simp at heq
    split at hrun
    next hne =>
      -- the stored uid changes: ref_add the new uid, ref_del the old one
      split at hrun
      next e heq2 => cases hrun
      next s2 heq2 =>
        cases hrun
        intro u
        obtain ⟨hdref, hdblocks, _⟩ :=
          refsOf_ref_del (MetaBackend.ref_add buid s) s2 block.uid u heq2
        have hs2 : s2.blocks = s.blocks := hdblocks.trans (ref_add_blocks s buid)
        have hfind2 : s2.blocks.find? (fun b => b.id == id && b.version_uid == vuid) =
            some block := by rw [hs2]; exact hfind
        obtain ⟨m₁, m₂, hdec2, _, _, hupd2⟩ := find?_decomp hfind2
          (fun b => ⟨buid, b.version_uid, b.id, now, checksum, size,
            if valid ≠ 0 then 1 else 0⟩)
        have e1 : MetaBackend.refsOf ⟨s2.versions,
            updateFirst (fun b => b.id == id && b.version_uid == vuid)
              (fun b => ⟨buid, b.version_uid, b.id, now, checksum, size,
                if valid ≠ 0 then 1 else 0⟩) s2.blocks, s2.refs⟩ u =
            MetaBackend.refsOf s u + (if buid = some u then 1 else 0) -
              (if block.uid = some u then 1 else 0) := by
          have h0 : MetaBackend.refsOf ⟨s2.versions,
              updateFirst (fun b => b.id == id && b.version_uid == vuid)
                (fun b => ⟨buid, b.version_uid, b.id, now, checksum, size,
                  if valid ≠ 0 then 1 else 0⟩) s2.blocks, s2.refs⟩ u =
              MetaBackend.refsOf s2 u := rfl
          rw [h0, hdref, refsOf_ref_add]
        have e2 : (MetaBackend.blockCount ⟨s2.versions,
            updateFirst (fun b => b.id == id && b.version_uid == vuid)
              (fun b => ⟨buid, b.version_uid, b.id, now, checksum, size,
                if valid ≠ 0 then 1 else 0⟩) s2.blocks, s2.refs⟩ u : Int) =
            ((m₁.filter (fun b => b.uid == some u)).length : Int) +
            (if buid = some u then 1 else 0) +
            ((m₂.filter (fun b => b.uid == some u)).length : Int) := by
          unfold MetaBackend.blockCount
          dsimp only
          rw [hupd2, List.filter_append, List.filter_cons]
          by_cases hb : buid = some u
          · have h1 : ((buid : Option String) == some u) = true := by simpa using hb
            simp [h1, hb]
            try push_cast
            try omega
          · have h1 : ((buid : Option String) == some u) = false := by simpa using hb
            simp [h1, hb]
            try push_cast
            try omega
        have e3 := blockCount_update s m₁ m₂ block block u (by rw [← hs2]; exact hdec2)
        have hi := hinv u
        rw [e1]
        rw [show ((MetaBackend.blockCount ⟨s2.versions,
            updateFirst (fun b => b.id == id && b.version_uid == vuid)
              (fun b => ⟨buid, b.version_uid, b.id, now, checksum, size,
                if valid ≠ 0 then 1 else 0⟩) s2.blocks, s2.refs⟩ u : Nat) : Int) =
            ((m₁.filter (fun b => b.uid == some u)).length : Int) +
            (if buid = some u then 1 else 0) +
            ((m₂.filter (fun b => b.uid == some u)).length : Int) from e2]
        omega
    next hne =>
      -- the stored uid is unchanged: pure row update, refcounts untouched
      cases hrun
      intro u
      obtain ⟨m₁, m₂, hdec, _, _, hupd⟩ := find?_decomp hfind
        (fun b => ⟨b.uid, b.version_uid, b.id, now, checksum, size,
          if valid ≠ 0 then 1 else 0⟩)
      have e1 : MetaBackend.refsOf ⟨s.versions,
          updateFirst (fun b => b.id == id && b.version_uid == vuid)
            (fun b => ⟨b.uid, b.version_uid, b.id, now, checksum, size,
              if valid ≠ 0 then 1 else 0⟩) s.blocks, s.refs⟩ u =
          MetaBackend.refsOf s u := rfl
      have e2 : MetaBackend.blockCount ⟨s.versions,
          updateFirst (fun b => b.id == id && b.version_uid == vuid)
            (fun b => ⟨b.uid, b.version_uid, b.id, now, checksum, size,
              if valid ≠ 0 then 1 else 0⟩) s.blocks, s.refs⟩ u =
          MetaBackend.blockCount s u := by
        unfold MetaBackend.blockCount
        dsimp only
        rw [hupd]
        conv_rhs => rw [hdec]
        rw [List.filter_append, List.filter_cons, List.filter_append, List.filter_cons]
        cases hb : (block.uid == some u) <;> simp [hb]
      rw [e1, e2]
      exact hinv u
  next heq =>
    -- no existing row: insert the block and bump the new uid refcount
    split at hrun
    next hdup => cases hrun
    next hdup =>
      cases hrun
      intro u
      have e1 : MetaBackend.refsOf (MetaBackend.ref_add buid
          ⟨s.versions, s.blocks ++ [⟨buid, vuid, id, now, checksum, size,
            if valid ≠ 0 then 1 else 0⟩], s.refs⟩) u =
          MetaBackend.refsOf s u + (if buid = some u then 1 else 0) := by
        rw [refsOf_ref_add]
        rfl
      have e2 : MetaBackend.blockCount (MetaBackend.ref_add buid
          ⟨s.versions, s.blocks ++ [⟨buid, vuid, id, now, checksum, size,
            if valid ≠ 0 then 1 else 0⟩], s.refs⟩) u =
          MetaBackend.blockCount s u + (if buid = some u then 1 else 0) := by
        unfold MetaBackend.blockCount
        rw [ref_add_blocks]
        dsimp only
        rw [List.filter_append, List.filter_cons]
        by_cases hb : buid = some u
        · have h1 : ((buid : Option String) == some u) = true := by simpa using hb
          simp [h1, hb]
        · have h1 : ((buid : Option String) == some u) = false := by simpa using hb
          simp [h1, hb]
      rw [e1, e2]
      have hi := hinv u
      push_cast
      omega

theorem foldE_ref_del_spec (L : List Backy2.MetaBackend.BlockRow) :
    ∀ (s s' : Backy2.MetaBackend.State),
    foldE (fun st b => MetaBackend.ref_del b.uid st) s L = .ok s' →
    s'.blocks = s.blocks ∧ s'.versions = s.versions ∧
    ∀ u, MetaBackend.refsOf s' u = MetaBackend.refsOf s u -
      ((L.filter (fun b => b.uid == some u)).length : Int) := by
  induction L with
  | nil =>
    intro s s' h
    cases h
    simp
  | cons b bs ih =>
    intro s s' h
    simp only [foldE] at h
    cases hd : MetaBackend.ref_del b.uid s with
    | error e => rw [hd] at h; cases h
    | ok s1 =>
      rw [hd] at h
      obtain ⟨hblocks, hversions, hrefs⟩ := ih s1 s' h
      have hdel := fun u => refsOf_ref_del s s1 b.uid u hd
      refine ⟨hblocks.trans (hdel "").2.1, hversions.trans (hdel "").2.2, fun u => ?_⟩
      rw [hrefs u, (hdel u).1]
      by_cases hb : b.uid = some u
      · have h1 : (b.uid == some u) = true := by simpa using hb
        simp [List.filter_cons, h1, hb]
        try push_cast
        try omega
      · have h1 : (b.uid == some u) = false := by simpa using hb
        simp [List.filter_cons, h1, hb]
        try push_cast
        try omega

theorem count_filter_split (l : List Backy2.MetaBackend.BlockRow)
    (q pp : Backy2.MetaBackend.BlockRow → Bool) :
    (l.filter pp).length =
      ((l.filter q).filter pp).length + ((l.filter (fun b => !q b)).filter pp).length := by
  induction l with
  | nil => rfl
  | cons x xs ih =>
    cases hq : q x <;> cases hpp : pp x <;>
      simp [List.filter_cons, hq, hpp, ih] <;> omega

theorem rm_version_preserves_refinv (vuid : String) (s s' : Backy2.MetaBackend.State)
    (n : Nat) (hinv : MetaBackend.RefInv s)
    (hrun : MetaBackend.rm_version vuid s = .ok (s', n)) :
    MetaBackend.RefInv s' := by
  unfold MetaBackend.rm_version at hrun
  dsimp only at hrun
  cases hf : foldE (fun st b => MetaBackend.ref_del b.uid st) s
      (s.blocks.filter (fun b => b.version_uid == vuid)) with
  | error e => rw [hf] at hrun; cases hrun
  | ok s1 =>
    rw [hf] at hrun
    cases hrun
    obtain ⟨hblocks, _, hrefs⟩ := foldE_ref_del_spec _ s s1 hf
    intro u
    have hsplit := count_filter_split s.blocks (fun b => b.version_uid == vuid)
      (fun b => b.uid == some u)
    have hi := hinv u
    unfold MetaBackend.blockCount at hi ⊢
    have hrew : s1.blocks.filter (fun b => b.version_uid != vuid) =
        s.blocks.filter (fun b => !(b.version_uid == vuid)) := by
      rw [hblocks]
      apply List.filter_congr
      intro x _
      rfl
    have hrefsu := hrefs u
    have : MetaBackend.refsOf { s1 with
        blocks := s1.blocks.filter (fun b => b.version_uid != vuid),
        versions := s1.versions.filter (fun v => v.uid != vuid) } u =
        MetaBackend.refsOf s1 u := rfl
    rw [this, hrefsu]
    have hgoal : (({ s1 with
        blocks := s1.blocks.filter (fun b => b.version_uid != vuid),
        versions := s1.versions.filter (fun v => v.uid != vuid) } :
          Backy2.MetaBackend.State).blocks.filter (fun b => b.uid == some u)).length =
        ((s.blocks.filter (fun b => !(b.version_uid == vuid))).filter
          (fun b => b.uid == some u)).length := by
      simp only
      rw [hrew]
    rw [hgoal]
    omega

/-- C2 (amended): the refcount invariant `refs(u) = |{blocks b : b.uid =
u}|` (with sparse, null-uid blocks never counted) is preserved by every
completed `MetaBackend.set_block` and `MetaBackend.rm_version` of
`meta_backends/sql.py`; it is *not* preserved by `import_`, which
inserts block rows without touching the refcount table (see the
counterexample). -/
theorem refcount_invariant_preserved :
    (∀ (now : String) (id : Nat) (vuid : String) (buid checksum : Option String)
      (size valid : Nat) (upsert : Bool) (s s' : Backy2.MetaBackend.State),
      MetaBackend.RefInv s →
      MetaBackend.set_block now id vuid buid checksum size valid upsert s = .ok s' →
      MetaBackend.RefInv s') ∧
    (∀ (vuid : String) (s s' : Backy2.MetaBackend.State) (n : Nat),
      MetaBackend.RefInv s →
      MetaBackend.rm_version vuid s = .ok (s', n) → MetaBackend.RefInv s') :=
  ⟨fun now id vuid buid checksum size valid upsert s s' hinv hrun =>
      set_block_preserves_refinv now id vuid buid checksum size valid upsert s s' hinv hrun,
    fun vuid s s' n hinv hrun => rm_version_preserves_refinv vuid s s' n hinv hrun⟩

/-- C2 witness: the preservation theorem applied to a concrete insert
(`set_block` of a block with uid `"u"` into the empty store) and then a
concrete `rm_version` of that version. -/
theorem refcount_invariant_preserved_witness :
    MetaBackend.RefInv ⟨[], [⟨some "u", "v", 0, "t", some "c", 4, 1⟩], [⟨"u", 1⟩]⟩ ∧
    MetaBackend.RefInv ⟨[], [], [⟨"u", 0⟩]⟩ := by
  have h0 : MetaBackend.RefInv ⟨[], [], []⟩ := fun u => rfl
  have h1 : MetaBackend.RefInv ⟨[], [⟨some "u", "v", 0, "t", some "c", 4, 1⟩], [⟨"u", 1⟩]⟩ :=
    refcount_invariant_preserved.1 "t" 0 "v" (some "u") (some "c") 4 1 true
      ⟨[], [], []⟩ _ h0 (by decide)
  exact ⟨h1, refcount_invariant_preserved.2 "v"
    ⟨[], [⟨some "u", "v", 0, "t", some "c", 4, 1⟩], [⟨"u", 1⟩]⟩ _ 1 h1 (by decide)⟩

/-- C2 counterexample: `import_` of a version holding one block with uid
`"u"` into the empty store creates the block row but no refcount row, so
after this completed meta-backend mutation `refs("u") = 0` while one
block row carries `"u"` — the invariant fails. -/
theorem import_breaks_refcount_invariant :
    MetaBackend.import_ ⟨"backy2 Version 2.1 metadata dump",
        [.str "v", .str "d", .str "n", .num 1, .num 4, .num 1],
        [[.str "u", .str "v", .num 0, .str "d", .str "cs", .num 4, .num 1]]⟩
        ⟨[], [], []⟩ =
      .ok ⟨[⟨"v", "d", "n", 1, 4, 1⟩], [⟨some "u", "v", 0, "d", some "cs", 4, 1⟩], []⟩ ∧
    MetaBackend.RefInv ⟨[], [], []⟩ ∧
    ¬ MetaBackend.RefInv ⟨[⟨"v", "d", "n", 1, 4, 1⟩],
        [⟨some "u", "v", 0, "d", some "cs", 4, 1⟩], []⟩ :=
  ⟨by decide, fun u => rfl, fun h => absurd (h "u") (by decide)⟩

/-! ### C4 — the final block of `_prepare_version` -/

theorem prepare_one_insert (B sb : Nat) (old : Option (List SQLBackend.BlockRow))
    (vuid : String) (st : SQLBackend.State) (i : Nat)
    (hnorow : ∀ b ∈ st.blocks, ¬(b.id = i ∧ b.version_uid = vuid))
    (halign : ∀ (k : Nat) (ob : SQLBackend.BlockRow),
      (old.getD []).get? k = some ob → ob.id = k) :
    Backy.prepare_one B sb old vuid st i =
      .ok { st with blocks := st.blocks ++ [Backy.prepared_row B sb old vuid i] } := by
  have hfind : st.blocks.find? (fun b => b.id == i && b.version_uid == vuid) = none := by
    apply find?_isNone_of_all_neg
    intro b hb
    have := hnorow b hb
    simp only [Bool.and_eq_false_iff]
    by_cases h1 : b.id = i
    · by_cases h2 : b.version_uid = vuid
      · exact absurd ⟨h1, h2⟩ this
      · exact Or.inr (by simpa using h2)
    · exact Or.inl (by simpa using h1)
  unfold Backy.prepare_one Backy.prepared_row SQLBackend.set_block
  cases old with
  | none =>
    simp only [hfind]
    split <;> rfl
  | some l =>
    cases l with
    | nil =>
      simp only [hfind]
      split <;> rfl
    | cons ob0 obs =>
      cases hget : (ob0 :: obs).get? i with
      | none =>
        simp only [hget, hfind]
        split <;> rfl
      | some ob =>
        have hid : ob.id = i := halign i ob (by simpa using hget)
        simp only [hget, hid, ne_eq, not_true_eq_false, if_neg, ite_false,
          reduceIte, hfind]
        split <;> rfl

theorem prepared_row_id (B sb : Nat) (old : Option (List SQLBackend.BlockRow))
    (vuid : String) (i : Nat) :
    (Backy.prepared_row B sb old vuid i).id = i ∧
    (Backy.prepared_row B sb old vuid i).version_uid = vuid := by
  unfold Backy.prepared_row
  dsimp only
  split <;> exact ⟨rfl, rfl⟩

theorem prepare_loop (B sb : Nat) (old : Option (List SQLBackend.BlockRow)) (vuid : String)
    (halign : ∀ (k : Nat) (ob : SQLBackend.BlockRow),
      (old.getD []).get? k = some ob → ob.id = k) :
    ∀ (ids : List Nat) (st : SQLBackend.State), ids.Nodup →
    (∀ i ∈ ids, ∀ b ∈ st.blocks, ¬(b.id = i ∧ b.version_uid = vuid)) →
    foldE (Backy.prepare_one B sb old vuid) st ids =
      .ok { st with blocks := st.blocks ++ ids.map (Backy.prepared_row B sb old vuid) } := by
  intro ids
  induction ids with
  | nil =>
    intro st _ _
    simp [foldE]
  | cons i rest ih =>
    intro st hnd hnorow
    have hstep := prepare_one_insert B sb old vuid st i
      (hnorow i (List.mem_cons_self i rest)) halign
    have hrest : ∀ j ∈ rest, ∀ b ∈ st.blocks ++ [Backy.prepared_row B sb old vuid i],
        ¬(b.id = j ∧ b.version_uid = vuid) := by
      intro j hj b hb
      rcases List.mem_append.1 hb with hb | hb
      · exact hnorow j (List.mem_cons_of_mem i hj) b hb
      · rcases List.mem_singleton.1 hb with rfl
        intro ⟨h1, _⟩
        rw [(prepared_row_id B sb old vuid i).1] at h1
        exact (List.nodup_cons.1 hnd).1 (h1 ▸ hj)
    have ihc := ih { st with blocks := st.blocks ++ [Backy.prepared_row B sb old vuid i] }
      (List.nodup_cons.1 hnd).2 hrest
    simp only [foldE, hstep, ihc]
    simp [List.append_assoc]

theorem prepared_row_spec (B sb : Nat) (obs : List SQLBackend.BlockRow)
    (vuid : String) (i : Nat) :
    (Backy.prepared_row B sb (some obs) vuid i).size =
      min (((obs.get? i).map (fun ob => ob.size)).getD B) (sb - i * B) ∧
    (min (((obs.get? i).map (fun ob => ob.size)).getD B) (sb - i * B) ≠
        ((obs.get? i).map (fun ob => ob.size)).getD B →
      (Backy.prepared_row B sb (some obs) vuid i).uid = none ∧
      (Backy.prepared_row B sb (some obs) vuid i).checksum = none ∧
      (Backy.prepared_row B sb (some obs) vuid i).valid = 1) := by
  unfold Backy.prepared_row
  cases obs with
  | nil =>
    by_cases h : min B (sb - i * B) = B <;> simp [h]
  | cons ob0 obs' =>
    cases hget : (ob0 :: obs').get? i with
    | none =>
      simp only [hget]
      by_cases h : min B (sb - i * B) = B <;> simp [h]
    | some ob =>
      simp only [hget]
      by_cases h : min ob.size (sb - i * B) = ob.size <;> simp [h]

/-- C4 (amended): for every `prepare_version` call with `size_bytes > 0`
over a well-formed base version, the final block (id = size − 1) of the
new version has size `min(s_base, size_bytes − (size−1)·block_size)`,
where `s_base` is the size inherited from the base's corresponding block
(`block_size` when the base has no such block) — *not* always the exact
remainder `size_bytes − (size−1)·block_size`: when the base's final
block is shorter than the remainder (a version grown from a smaller
base), the inherited size wins and the block keeps its inherited
uid/checksum.  Whenever the clamped size differs from the inherited one,
the block's uid and checksum are cleared and its valid flag set to 1. -/
theorem prepare_version_final_block (B : Nat) (name : String) (size_bytes : Nat)
    (fv : String) (s s' : SQLBackend.State) (vuid : String)
    (hB : 0 < B) (hsb : 0 < size_bytes)
    (halign : ∀ (k : Nat) (ob : SQLBackend.BlockRow),
      (SQLBackend.get_blocks_by_version fv s).get? k = some ob → ob.id = k)
    (hfresh : ∀ b ∈ s.blocks, b.version_uid ≠ "version-" ++ toString s.vcounter)
    (hrun : Backy.prepare_version B name size_bytes (some fv) s = .ok (s', vuid)) :
    let size := (size_bytes + B - 1) / B
    let inherited := (((SQLBackend.get_blocks_by_version fv s).get? (size - 1)).map
      (fun ob => ob.size)).getD B
    let remainder := size_bytes - (size - 1) * B
    ((SQLBackend.get_blocks_by_version vuid s').get? (size - 1)).map (fun b => b.size) =
        some (min inherited remainder) ∧
      (min inherited remainder ≠ inherited →
        ((SQLBackend.get_blocks_by_version vuid s').get? (size - 1)).map
            (fun b => (b.uid, b.checksum, b.valid)) =
          some ((none : Option String), (none : Option String), 1)) := by
  dsimp only
  unfold Backy.prepare_version at hrun
  dsimp only at hrun
  cases hgv : SQLBackend.get_version fv s with
  | none => rw [hgv] at hrun; cases hrun
  | some ov =>
    rw [hgv] at hrun
    dsimp only at hrun
    by_cases hval : ov.valid = 0
    · rw [if_pos hval] at hrun; cases hrun
    · rw [if_neg hval] at hrun
      dsimp only [SQLBackend.set_version] at hrun
      rw [prepare_loop B size_bytes (some (SQLBackend.get_blocks_by_version fv s))
        ("version-" ++ toString s.vcounter) (by simpa using halign)
        (List.range ((size_bytes + B - 1) / B))
        ⟨s.versions ++ [⟨"version-" ++ toString s.vcounter, name,
          (size_bytes + B - 1) / B, size_bytes, 0⟩], s.blocks, s.vcounter + 1⟩
        (List.nodup_range _)
        (fun i _ b hb => fun ⟨_, h2⟩ => hfresh b hb h2)] at hrun
      cases hrun
      have hsize1 : 1 ≤ (size_bytes + B - 1) / B := by
        rw [Nat.le_div_iff_mul_le hB]
        omega
      have hlt : (size_bytes + B - 1) / B - 1 < (size_bytes + B - 1) / B := by omega
      have hgbv : SQLBackend.get_blocks_by_version ("version-" ++ toString s.vcounter)
          ⟨s.versions ++ [⟨"version-" ++ toString s.vcounter, name,
              (size_bytes + B - 1) / B, size_bytes, 0⟩],
            s.blocks ++ (List.range ((size_bytes + B - 1) / B)).map
              (Backy.prepared_row B size_bytes
                (some (SQLBackend.get_blocks_by_version fv s))
                ("version-" ++ toString s.vcounter)),
            s.vcounter + 1⟩ =
          (List.range ((size_bytes + B - 1) / B)).map
            (Backy.prepared_row B size_bytes
              (some (SQLBackend.get_blocks_by_version fv s))
              ("version-" ++ toString s.vcounter)) := by
        show (s.blocks ++ (List.range ((size_bytes + B - 1) / B)).map
            (Backy.prepared_row B size_bytes
              (some (SQLBackend.get_blocks_by_version fv s))
              ("version-" ++ toString s.vcounter))).filter
            (fun b => b.version_uid == "version-" ++ toString s.vcounter) =
          (List.range ((size_bytes + B - 1) / B)).map
            (Backy.prepared_row B size_bytes
              (some (SQLBackend.get_blocks_by_version fv s))
              ("version-" ++ toString s.vcounter))
        rw [List.filter_append]
        have h1 : s.blocks.filter (fun b => b.version_uid ==
            "version-" ++ toString s.vcounter) = [] := by
          rw [List.filter_eq_nil]
          intro b hb
          simpa using hfresh b hb
        have h2 : ((List.range ((size_bytes + B - 1) / B)).map
            (Backy.prepared_row B size_bytes
              (some (SQLBackend.get_blocks_by_version fv s))
              ("version-" ++ toString s.vcounter))).filter
              (fun b => b.version_uid == "version-" ++ toString s.vcounter) =
            (List.range ((size_bytes + B - 1) / B)).map
              (Backy.prepared_row B size_bytes
                (some (SQLBackend.get_blocks_by_version fv s))
                ("version-" ++ toString s.vcounter)) := by
          rw [List.filter_eq_self]
          intro b hb
          rcases List.mem_map.1 hb with ⟨i, _, rfl⟩
          simp [(prepared_row_id _ _ _ _ i).2]
        rw [h1, h2, List.nil_append]
      rw [hgbv]
      have hget : ((List.range ((size_bytes + B - 1) / B)).map
          (Backy.prepared_row B size_bytes
            (some (SQLBackend.get_blocks_by_version fv s))
            ("version-" ++ toString s.vcounter))).get?
            ((size_bytes + B - 1) / B - 1) =
          some (Backy.prepared_row B size_bytes
            (some (SQLBackend.get_blocks_by_version fv s))
            ("version-" ++ toString s.vcounter) ((size_bytes + B - 1) / B - 1)) := by
        rw [List.get?_map, List.get?_range hlt]
        rfl
      rw [hget]
      obtain ⟨hspec1, hspec2⟩ := prepared_row_spec B size_bytes
        (SQLBackend.get_blocks_by_version fv s)
        ("version-" ++ toString s.vcounter) ((size_bytes + B - 1) / B - 1)
      constructor
      · simpa using hspec1
      · intro hne
        obtain ⟨ha, hb, hc⟩ := hspec2 hne
        simp [ha, hb, hc]

/-- C4 counterexample: growing a version from a smaller base violates
the claim.  Base version `"base"` is a valid 10-byte version with blocks
of sizes 4, 4, 2 (block size 4); `prepare_version("new", 12, "base")`
creates 3 blocks whose final block (id 2) keeps the inherited size 2 and
inherited uid `"c"` — but the claim demands size
`size_bytes − (size−1)·block_size = 12 − 2·4 = 4`, and `2 ≠ 4`. -/
theorem prepare_version_grow_counterexample :
    (Backy.prepare_version 4 "new" 12 (some "base")
        ⟨[⟨"base", "b", 3, 10, 1⟩],
          [⟨some "a", "base", 0, some "ca", 4, 1⟩,
           ⟨some "b", "base", 1, some "cb", 4, 1⟩,
           ⟨some "c", "base", 2, some "cc", 2, 1⟩], 0⟩).map
      (fun r => (SQLBackend.get_blocks_by_version r.2 r.1).map
        (fun b => (b.id, b.uid, b.size, b.valid))) =
      .ok [(0, some "a", 4, 1), (1, some "b", 4, 1), (2, some "c", 2, 1)] ∧
    12 - (3 - 1) * 4 = 4 ∧ (2 : Nat) ≠ 4 := by
  decide

/-- C4 witness: the amended theorem applied to the concrete growth
scenario — the final block's size is `min 2 4 = 2`. -/
theorem prepare_version_final_block_witness :
    ((SQLBackend.get_blocks_by_version "version-0"
        ⟨[⟨"base", "b", 3, 10, 1⟩, ⟨"version-0", "new", 3, 12, 0⟩],
          [⟨some "a", "base", 0, some "ca", 4, 1⟩,
           ⟨some "b", "base", 1, some "cb", 4, 1⟩,
           ⟨some "c", "base", 2, some "cc", 2, 1⟩,
           ⟨some "a", "version-0", 0, some "ca", 4, 1⟩,
           ⟨some "b", "version-0", 1, some "cb", 4, 1⟩,
           ⟨some "c", "version-0", 2, some "cc", 2, 1⟩], 1⟩).get? 2).map
      (fun b => b.size) = some 2 :=
  (prepare_version_final_block 4 "new" 12 "base"
    ⟨[⟨"base", "b", 3, 10, 1⟩],
      [⟨some "a", "base", 0, some "ca", 4, 1⟩,
       ⟨some "b", "base", 1, some "cb", 4, 1⟩,
       ⟨some "c", "base", 2, some "cc", 2, 1⟩], 0⟩
    ⟨[⟨"base", "b", 3, 10, 1⟩, ⟨"version-0", "new", 3, 12, 0⟩],
      [⟨some "a", "base", 0, some "ca", 4, 1⟩,
       ⟨some "b", "base", 1, some "cb", 4, 1⟩,
       ⟨some "c", "base", 2, some "cc", 2, 1⟩,
       ⟨some "a", "version-0", 0, some "ca", 4, 1⟩,
       ⟨some "b", "version-0", 1, some "cb", 4, 1⟩,
       ⟨some "c", "version-0", 2, some "cc", 2, 1⟩], 1⟩
    "version-0" (by decide) (by decide)
    (by
      intro k ob h
      have hk : k < 3 := by
        by_contra hk
        rw [List.get?_eq_none.2 (by
          have hlen : (SQLBackend.get_blocks_by_version "base"
              ⟨[⟨"base", "b", 3, 10, 1⟩],
                [⟨some "a", "base", 0, some "ca", 4, 1⟩,
                 ⟨some "b", "base", 1, some "cb", 4, 1⟩,
                 ⟨some "c", "base", 2, some "cc", 2, 1⟩], 0⟩).length = 3 := by decide
          omega)] at h
        cases h
      interval_cases k <;> (cases h; rfl))
    (by decide) (by decide)).1

/-! ### C9 — export / rm / import round trip -/

theorem insertByID_perm (b : Backy2.MetaBackend.BlockRow) (l : List MetaBackend.BlockRow) :
    List.Perm (MetaBackend.insertByID b l) (b :: l) := by
  induction l with
  | nil => exact List.Perm.refl _
  | cons x xs ih =>
    unfold MetaBackend.insertByID
    by_cases h : b.id ≤ x.id
    · rw [if_pos h]
    · rw [if_neg h]
      exact (List.Perm.cons x ih).trans (List.Perm.swap b x xs)

theorem sortByID_perm (l : List Backy2.MetaBackend.BlockRow) :
    List.Perm (MetaBackend.sortByID l) l := by
  induction l with
  | nil => exact List.Perm.refl _
  | cons x xs ih =>
    exact (insertByID_perm x (MetaBackend.sortByID xs)).trans (List.Perm.cons x ih)

theorem mem_sortByID {a : Backy2.MetaBackend.BlockRow} {l : List MetaBackend.BlockRow} :
    a ∈ MetaBackend.sortByID l ↔ a ∈ l :=
  (sortByID_perm l).mem_iff

theorem pairwise_insertByID (b : Backy2.MetaBackend.BlockRow)
    (l : List MetaBackend.BlockRow)
    (h : l.Pairwise (fun x y => x.id ≤ y.id)) :
    (MetaBackend.insertByID b l).Pairwise (fun x y => x.id ≤ y.id) := by
  induction l with
  | nil => simp [MetaBackend.insertByID]
  | cons x xs ih =>
    unfold MetaBackend.insertByID
    obtain ⟨hx, hxs⟩ := List.pairwise_cons.1 h
    by_cases hbx : b.id ≤ x.id
    · rw [if_pos hbx]
      refine List.pairwise_cons.2 ⟨?_, h⟩
      intro y hy
      rcases List.mem_cons.1 hy with rfl | hy
      · exact hbx
      · exact le_trans hbx (hx y hy)
    · rw [if_neg hbx]
      refine List.pairwise_cons.2 ⟨?_, ih hxs⟩
      intro y hy
      have hy2 := (insertByID_perm b xs).mem_iff.1 hy
      rcases List.mem_cons.1 hy2 with rfl | hy2
      · omega
      · exact hx y hy2

theorem sortByID_sorted (l : List Backy2.MetaBackend.BlockRow) :
    (MetaBackend.sortByID l).Pairwise (fun x y => x.id ≤ y.id) := by
  induction l with
  | nil => simp [MetaBackend.sortByID]
  | cons x xs ih => exact pairwise_insertByID x (MetaBackend.sortByID xs) ih

theorem sortByID_of_sorted (l : List Backy2.MetaBackend.BlockRow)
    (h : l.Pairwise (fun x y => x.id ≤ y.id)) :
    MetaBackend.sortByID l = l := by
  induction l with
  | nil => rfl
  | cons x xs ih =>
    obtain ⟨hx, hxs⟩ := List.pairwise_cons.1 h
    have : MetaBackend.sortByID (x :: xs) = MetaBackend.insertByID x (MetaBackend.sortByID xs) := rfl
    rw [this, ih hxs]
    cases xs with
    | nil => rfl
    | cons y ys =>
      unfold MetaBackend.insertByID
      rw [if_pos (hx y (List.mem_cons_self y ys))]

theorem sortByID_idem (l : List Backy2.MetaBackend.BlockRow) :
    MetaBackend.sortByID (MetaBackend.sortByID l) = MetaBackend.sortByID l :=
  sortByID_of_sorted _ (sortByID_sorted l)

theorem rm_version_shape (vuid : String) (s s1 : Backy2.MetaBackend.State) (n : Nat)
    (hrm : MetaBackend.rm_version vuid s = .ok (s1, n)) :
    s1.blocks = s.blocks.filter (fun b => b.version_uid != vuid) ∧
    s1.versions = s.versions.filter (fun v => v.uid != vuid) := by
  unfold MetaBackend.rm_version at hrm
  dsimp only at hrm
  cases hf : foldE (fun st b => MetaBackend.ref_del b.uid st) s
      (s.blocks.filter (fun b => b.version_uid == vuid)) with
  | error e => rw [hf] at hrm; cases hrm
  | ok sf =>
    rw [hf] at hrm
    cases hrm
    obtain ⟨hb, hv, _⟩ := foldE_ref_del_spec _ s sf hf
    exact ⟨by rw [hb], by rw [hv]⟩

theorem foldE_import_rows (rows : List Backy2.MetaBackend.BlockRow)
    (hns : ∀ b ∈ rows, b.uid ≠ none ∧ b.checksum ≠ none) :
    ∀ acc : List Backy2.MetaBackend.BlockRow,
    foldE (fun (bs : List Backy2.MetaBackend.BlockRow) cells =>
        (MetaBackend.importBlockRow cells).map (fun b => bs ++ [b]))
      acc (rows.map (fun b =>
        [.str (b.uid.getD ""), .str b.version_uid, .num b.id, .str b.date,
          .str (b.checksum.getD ""), .num b.size, .num b.valid])) =
      .ok (acc ++ rows) := by
  induction rows with
  | nil =>
    intro acc
    simp [foldE]
  | cons b bs ih =>
    intro acc
    obtain ⟨hu, hc⟩ := hns b (List.mem_cons_self b bs)
    have hrow : MetaBackend.importBlockRow
        [.str (b.uid.getD ""), .str b.version_uid, .num b.id, .str b.date,
          .str (b.checksum.getD ""), .num b.size, .num b.valid] = .ok b := by
      unfold MetaBackend.importBlockRow
      cases hbu : b.uid with
      | none => exact absurd hbu hu
      | some u =>
        cases hbc : b.checksum with
        | none => exact absurd hbc hc
        | some c =>
          dsimp only [MetaBackend.Cell.toColumnStr, MetaBackend.Cell.toColumnNat]
          simp [hbu, hbc]
          rw [← hbu, ← hbc]
    have hrest : ∀ x ∈ bs, x.uid ≠ none ∧ x.checksum ≠ none :=
      fun x hx => hns x (List.mem_cons_of_mem b hx)
    have h1 : foldE (fun (bs : List Backy2.MetaBackend.BlockRow) cells =>
          (MetaBackend.importBlockRow cells).map (fun b => bs ++ [b]))
        acc ((b :: bs).map (fun b =>
          [.str (b.uid.getD ""), .str b.version_uid, .num b.id, .str b.date,
            .str (b.checksum.getD ""), .num b.size, .num b.valid])) =
        foldE (fun (bs : List Backy2.MetaBackend.BlockRow) cells =>
          (MetaBackend.importBlockRow cells).map (fun b => bs ++ [b]))
        (acc ++ [b]) (bs.map (fun b =>
          [.str (b.uid.getD ""), .str b.version_uid, .num b.id, .str b.date,
            .str (b.checksum.getD ""), .num b.size, .num b.valid])) := by
      simp only [List.map_cons, foldE, hrow]
      try rfl
    rw [h1, ih hrest]
    simp

/-- C9 (amended): for a version none of whose blocks is sparse — every
block row has a non-null uid and checksum — the round trip
`export(uid, f); rm_version(uid); import(f)` restores the version row
and exactly the original ordered block rows, and `import` into a state
where the version still exists is refused with a `KeyError`.  For a
version containing *sparse* blocks the round trip is lossy: the CSV
writes NULL as an empty text field and import stores that empty string,
not NULL (see the counterexample). -/
theorem export_rm_import_roundtrip (s : Backy2.MetaBackend.State) (vuid : String)
    (v : Backy2.MetaBackend.VersionRow) (dump : Backy2.MetaBackend.Dump)
    (s1 : Backy2.MetaBackend.State) (n : Nat)
    (hv : MetaBackend.get_version vuid s = some v)
    (hnosparse : ∀ b ∈ MetaBackend.get_blocks_by_version vuid s,
      b.uid ≠ none ∧ b.checksum ≠ none)
    (hexp : MetaBackend.export_ vuid s = .ok dump)
    (hrm : MetaBackend.rm_version vuid s = .ok (s1, n)) :
    (∃ s2, MetaBackend.import_ dump s1 = .ok s2 ∧
      MetaBackend.get_version vuid s2 = some v ∧
      MetaBackend.get_blocks_by_version vuid s2 =
        MetaBackend.get_blocks_by_version vuid s) ∧
    MetaBackend.import_ dump s = .error .keyError := by
  have hvu : v.uid = vuid := by simpa using List.find?_some hv
  have hdump : dump = ⟨"backy2 Version " ++ MetaBackend.METADATA_VERSION ++ " metadata dump",
      [.str v.uid, .str v.date, .str v.name, .num v.size, .num v.size_bytes, .num v.valid],
      (MetaBackend.get_blocks_by_version vuid s).map (fun b =>
        [.str (b.uid.getD ""), .str b.version_uid, .num b.id, .str b.date,
          .str (b.checksum.getD ""), .num b.size, .num b.valid])⟩ := by
    unfold MetaBackend.export_ at hexp
    rw [hv] at hexp
    cases hexp
    rfl
  subst hdump
  obtain ⟨hs1b, hs1v⟩ := rm_version_shape vuid s s1 n hrm
  have hbsmem : ∀ b ∈ MetaBackend.get_blocks_by_version vuid s,
      b.version_uid = vuid := by
    intro b hb
    have := List.mem_filter.1 (mem_sortByID.1 hb)
    simpa using this.2
  constructor
  · -- import into the post-rm state succeeds and restores the rows
    have hgv1 : MetaBackend.get_version v.uid s1 = none := by
      unfold MetaBackend.get_version
      rw [hs1v]
      apply find?_isNone_of_all_neg
      intro x hx
      have hne := (List.mem_filter.1 hx).2
      simp only [bne_iff_ne, ne_eq] at hne
      simp [hvu, hne]
    refine ⟨⟨s1.versions ++ [⟨v.uid, v.date, v.name, v.size, v.size_bytes, v.valid⟩],
      s1.blocks ++ MetaBackend.get_blocks_by_version vuid s, s1.refs⟩, ?_, ?_, ?_⟩
    · unfold MetaBackend.import_
      rw [if_neg (fun hne => hne rfl)]
      dsimp only [MetaBackend.Cell.toColumnStr, MetaBackend.Cell.toColumnNat]
      rw [hgv1]
      rw [foldE_import_rows (MetaBackend.get_blocks_by_version vuid s) hnosparse []]
      rw [List.nil_append]
    · unfold MetaBackend.get_version
      dsimp only
      rw [List.find?_append]
      have h1 : s1.versions.find? (fun w => w.uid == vuid) = none := by
        rw [hs1v]
        apply find?_isNone_of_all_neg
        intro x hx
        have hne := (List.mem_filter.1 hx).2
        simp only [bne_iff_ne, ne_eq] at hne
        simpa using hne
      rw [h1]
      have h2 : ([(⟨v.uid, v.date, v.name, v.size, v.size_bytes, v.valid⟩ :
          Backy2.MetaBackend.VersionRow)].find? (fun w => w.uid == vuid)) =
          some ⟨v.uid, v.date, v.name, v.size, v.size_bytes, v.valid⟩ := by
        rw [List.find?_cons_of_pos _ (by simpa using hvu)]
      rw [h2]
      rfl
    · show MetaBackend.sortByID ((s1.blocks ++
          MetaBackend.get_blocks_by_version vuid s).filter
          (fun b => b.version_uid == vuid)) = MetaBackend.get_blocks_by_version vuid s
      rw [List.filter_append]
      have h1 : s1.blocks.filter (fun b => b.version_uid == vuid) = [] := by
        rw [hs1b, List.filter_filter]
        apply List.filter_eq_nil_iff.2
        intro x _
        by_cases hx : x.version_uid = vuid <;> simp [hx]
      have h2 : (MetaBackend.get_blocks_by_version vuid s).filter
          (fun b => b.version_uid == vuid) =
          MetaBackend.get_blocks_by_version vuid s := by
        apply List.filter_eq_self.2
        intro x hx
        simpa using hbsmem x hx
      rw [h1, h2, List.nil_append]
      exact sortByID_idem _
  · -- import into the original state is refused: the version uid exists
    unfold MetaBackend.import_
    rw [if_neg (fun hne => hne rfl)]
    dsimp only [MetaBackend.Cell.toColumnStr]
    have hv2 : MetaBackend.get_version v.uid s = some v := by rw [hvu]; exact hv
    rw [hv2]

/-- C9 counterexample: for a version with a *sparse* block the round
trip does not restore the same block rows.  The sparse block's NULL uid
and checksum are written to the CSV as empty fields, and import stores
the empty string — `some ""`, not `none` — so the restored row differs
from the original. -/
theorem export_rm_import_sparse_counterexample :
    ((MetaBackend.export_ "v" ⟨[⟨"v", "d0", "n", 1, 2, 1⟩],
        [⟨none, "v", 0, "d1", none, 2, 1⟩], []⟩).bind (fun dump =>
      (MetaBackend.rm_version "v" ⟨[⟨"v", "d0", "n", 1, 2, 1⟩],
        [⟨none, "v", 0, "d1", none, 2, 1⟩], []⟩).bind (fun p =>
      (MetaBackend.import_ dump p.1).map
        (fun s2 => s2.blocks.map (fun b => (b.uid, b.checksum)))))) =
      .ok [(some "", some "")] ∧
    (⟨none, "v", 0, "d1", none, 2, 1⟩ : Backy2.MetaBackend.BlockRow).uid = none ∧
    (some "" : Option String) ≠ none := by
  decide

/-- C9 witness: the amended theorem applied to a concrete sparse-free
version — its refusal conjunct: importing the dump while the version
still exists raises `KeyError`. -/
theorem export_rm_import_roundtrip_witness :
    MetaBackend.import_
        ⟨"backy2 Version 2.1 metadata dump",
          [.str "v", .str "d0", .str "n", .num 1, .num 2, .num 1],
          [[.str "u", .str "v", .num 0, .str "d1", .str "c", .num 2, .num 1]]⟩
        ⟨[⟨"v", "d0", "n", 1, 2, 1⟩],
          [⟨some "u", "v", 0, "d1", some "c", 2, 1⟩], [⟨"u", 1⟩]⟩ =
      .error .keyError :=
  (export_rm_import_roundtrip
    ⟨[⟨"v", "d0", "n", 1, 2, 1⟩],
      [⟨some "u", "v", 0, "d1", some "c", 2, 1⟩], [⟨"u", 1⟩]⟩
    "v" ⟨"v", "d0", "n", 1, 2, 1⟩
    ⟨"backy2 Version 2.1 metadata dump",
      [.str "v", .str "d0", .str "n", .num 1, .num 2, .num 1],
      [[.str "u", .str "v", .num 0, .str "d1", .str "c", .num 2, .num 1]]⟩
    ⟨[], [], [⟨"u", 0⟩]⟩ 1
    (by decide) (by decide) (by decide) (by decide)).2

end Backy2
